import Mathlib

/-!
Verification development for the `robots` repository (a bomberman-style
game server and client).  The definitions below are shallow embeddings of
the C++ sources:

* `src/buffer.h`   — byte buffers; modelled as `List Nat` byte streams,
  each byte `< 256`; readers are state/except computations over the stream.
* `src/messages.h` — the wire codec (`operator<<` / `operator>>` for every
  Data class); encoders produce byte lists, decoders consume them.
* `src/robots-client.cpp` — the client's input translation and the fold of
  server messages into the draw state.
* `src/robots-server.cpp` — the server's bomb queue, explosion processing
  and turn-0 generation.
* `src/utils.h`    — the `Random` linear congruential generator.

Machine integers are modelled as `Nat` with explicit `% 2^w` at the
points where the C++ code truncates (casts such as `(uint8_t)size`), and
well-formedness predicates record the value ranges of the C++ types.
-/

namespace Robots


/-! ## Byte-stream reader model (src/buffer.h)

A TCP/UDP buffer is abstracted as the list of bytes it will deliver.
`Rd α` is a reader computation: it consumes bytes from the stream and
either returns a value together with the remaining stream, or fails
(`BadRead` = not enough bytes, `BadType` = variant tag out of range,
mirroring `src/exceptions.h`).  The `EStateM.Result` of a failed reader
records the stream at the moment of the throw, so consumption by a
failing parse is observable. -/

inductive ReadErr where
  | badRead
  | badType
deriving DecidableEq

/-- Reader computations over a byte stream. -/
abbrev Rd (α : Type) : Type := EStateM ReadErr (List Nat) α

/-- `Buffer::readU8`: consume one byte. -/
def rdU8 : Rd Nat := fun s =>
  match s with
  | [] => .error .badRead []
  | b :: rest => .ok b rest

/-- `Buffer::readU16`: two bytes, big-endian (`be16toh`). -/
def rdU16 : Rd Nat := do
  let hi ← rdU8
  let lo ← rdU8
  return hi * 256 + lo

/-- `Buffer::readU32`: four bytes, big-endian (`be32toh`). -/
def rdU32 : Rd Nat := do
  let b0 ← rdU8
  let b1 ← rdU8
  let b2 ← rdU8
  let b3 ← rdU8
  return ((b0 * 256 + b1) * 256 + b2) * 256 + b3

/-- `Buffer::readStr(length)`: consume `length` raw bytes. -/
def rdBytes : Nat → Rd (List Nat)
  | 0 => return []
  | n + 1 => do
    let b ← rdU8
    let bs ← rdBytes n
    return b :: bs

/-- `Buffer::writeU8`: one byte (an incoming `uint8_t`, hence the `% 256`). -/
def wrU8 (v : Nat) : List Nat := [v % 256]

/-- `Buffer::writeU16`: big-endian bytes of a `uint16_t` (`htobe16`). -/
def wrU16 (v : Nat) : List Nat := [v / 256 % 256, v % 256]

/-- `Buffer::writeU32`: big-endian bytes of a `uint32_t` (`htobe32`). -/
def wrU32 (v : Nat) : List Nat :=
  [v / 16777216 % 256, v / 65536 % 256, v / 256 % 256, v % 256]

/-! ## Strings (src/messages.h, DataString)

A `DataString` value is its byte sequence.  The writer emits
`(uint8_t)value.size()` — note the truncating cast — followed by the raw
bytes (`Buffer::writeStr`); the reader reads one length byte and then
that many bytes (`readStr(readU8())`). -/

/-- `operator<<(Buffer&, const DataString&)`. -/
def wrString (s : List Nat) : List Nat := wrU8 s.length ++ s

/-- `operator>>(Buffer&, DataString&)`. -/
def rdString : Rd (List Nat) := do
  let n ← rdU8
  rdBytes n

/-- Well-formed wire string: at most 255 bytes, each a byte. -/
def wfStr (s : List Nat) : Prop := s.length ≤ 255 ∧ ∀ b ∈ s, b < 256

instance (s : List Nat) : Decidable (wfStr s) := by
  unfold wfStr; infer_instance

/-! ## Domain records (src/messages.h) -/

/-- `DataPosition { DataU16 x; DataU16 y; }`. -/
structure DPos where
  x : Nat
  y : Nat
deriving DecidableEq

/-- `DataPosition::operator<`: by `x`, then `y`. -/
def posLt (a b : DPos) : Bool :=
  if a.x < b.x then true
  else if b.x < a.x then false
  else a.y < b.y

/-- `operator<<(Buffer&, const DataPosition&)`. -/
def wrPos (p : DPos) : List Nat := wrU16 p.x ++ wrU16 p.y

/-- `operator>>(Buffer&, DataPosition&)`. -/
def rdPos : Rd DPos := do
  let x ← rdU16
  let y ← rdU16
  return ⟨x, y⟩

def wfPos (p : DPos) : Prop := p.x < 65536 ∧ p.y < 65536

instance (p : DPos) : Decidable (wfPos p) := by
  unfold wfPos; infer_instance

/-- `DataPlayer { DataString name; DataString address; }`. -/
structure DPlayer where
  name : List Nat
  address : List Nat
deriving DecidableEq

/-- `operator<<(Buffer&, const DataPlayer&)`. -/
def wrPlayer (p : DPlayer) : List Nat := wrString p.name ++ wrString p.address

/-- `operator>>(Buffer&, DataPlayer&)`. -/
def rdPlayer : Rd DPlayer := do
  let n ← rdString
  let a ← rdString
  return ⟨n, a⟩

def wfPlayer (p : DPlayer) : Prop := wfStr p.name ∧ wfStr p.address

instance (p : DPlayer) : Decidable (wfPlayer p) := by
  unfold wfPlayer; infer_instance

/-- `DataBomb { DataPosition position; DataU16 timer; }`.  In the server,
`timer` stores the scheduled explosion turn of the bomb. -/
structure DBomb where
  position : DPos
  timer : Nat
deriving DecidableEq

/-- `DataBomb::operator<`: by `timer`, then `position`. -/
def bombLt (a b : DBomb) : Bool :=
  if a.timer < b.timer then true
  else if b.timer < a.timer then false
  else posLt a.position b.position

/-- `operator<<(Buffer&, const DataBomb&)`. -/
def wrBomb (b : DBomb) : List Nat := wrPos b.position ++ wrU16 b.timer

/-- `operator>>(Buffer&, DataBomb&)`. -/
def rdBomb : Rd DBomb := do
  let p ← rdPos
  let t ← rdU16
  return ⟨p, t⟩

def wfBomb (b : DBomb) : Prop := wfPos b.position ∧ b.timer < 65536

instance (b : DBomb) : Decidable (wfBomb b) := by
  unfold wfBomb; infer_instance

/-! ## Direction (src/messages.h, DataDirection) -/

/-- `DirectionEnum : uint8_t { Up = 0, Right = 1, Down = 2, Left = 3 }`. -/
inductive Dir where
  | up
  | right
  | down
  | left
deriving DecidableEq

/-- The tag byte of a direction (`static_cast<uint8_t>`). -/
def dirTag : Dir → Nat
  | .up => 0
  | .right => 1
  | .down => 2
  | .left => 3

/-- `operator<<(Buffer&, const DataDirection&)`. -/
def wrDir (d : Dir) : List Nat := wrU8 (dirTag d)

/-- `operator>>(Buffer&, DataDirection&)`: one byte; values `> 3` throw
`BadType`; otherwise `static_cast<DirectionEnum>`. -/
def rdDir : Rd Dir := do
  let v ← rdU8
  if v > 3 then throw .badType
  else if v = 0 then return .up
  else if v = 1 then return .right
  else if v = 2 then return .down
  else return .left

/-! ## Lists (src/messages.h, DataList<T>)

The writer emits `(uint32_t)list.size()` then each element; the reader
reads a `u32` count and that many elements. -/

/-- Concatenated encodings of the elements (the `for` loop of
`operator<<(Buffer&, const DataList<T>&)`). -/
def wrElems {α : Type} (wr : α → List Nat) : List α → List Nat
  | [] => []
  | a :: as => wr a ++ wrElems wr as

/-- `operator<<(Buffer&, const DataList<T>&)`. -/
def wrList {α : Type} (wr : α → List Nat) (l : List α) : List Nat :=
  wrU32 l.length ++ wrElems wr l

/-- The element loop of `operator>>(Buffer&, DataList<T>&)`. -/
def rdListN {α : Type} (rd : Rd α) : Nat → Rd (List α)
  | 0 => return []
  | n + 1 => do
    let a ← rd
    let as ← rdListN rd n
    return a :: as

/-- `operator>>(Buffer&, DataList<T>&)` (into a fresh, empty list). -/
def rdList {α : Type} (rd : Rd α) : Rd (List α) := do
  let n ← rdU32
  rdListN rd n

def wfListOf {α : Type} (wf : α → Prop) (l : List α) : Prop :=
  l.length < 4294967296 ∧ ∀ a ∈ l, wf a

/-! ## Maps (src/messages.h, DataMap<K, V>)

`DataMap` is a template; every instantiation in the sources uses
`DataU8` keys (`players`, `playerPositions`, `scores`), so the
embedding fixes the key type to a `u8`-encoded `Nat`.  The C++ value is
a `std::map`, modelled as an association list strictly sorted by key;
`std::map::insert` keeps the first binding of a key. -/

/-- `std::map<DataU8, V>::insert({key, value})`: ordered insert that does
not overwrite an existing key. -/
def mapInsert {υ : Type} (k : Nat) (v : υ) : List (Nat × υ) → List (Nat × υ)
  | [] => [(k, v)]
  | (k', v') :: rest =>
    if k < k' then (k, v) :: (k', v') :: rest
    else if k' < k then (k', v') :: mapInsert k v rest
    else (k', v') :: rest

/-- The pair loop of `operator<<(Buffer&, const DataMap<K, V>&)`. -/
def wrMapElems {υ : Type} (wrV : υ → List Nat) : List (Nat × υ) → List Nat
  | [] => []
  | (k, v) :: rest => wrU8 k ++ wrV v ++ wrMapElems wrV rest

/-- `operator<<(Buffer&, const DataMap<K, V>&)`. -/
def wrMap {υ : Type} (wrV : υ → List Nat) (m : List (Nat × υ)) : List Nat :=
  wrU32 m.length ++ wrMapElems wrV m

/-- The pair loop of `operator>>(Buffer&, DataMap<K, V>&)`, accumulating
by `std::map::insert`. -/
def rdMapN {υ : Type} (rdV : Rd υ) : Nat → List (Nat × υ) → Rd (List (Nat × υ))
  | 0, acc => return acc
  | n + 1, acc => do
    let k ← rdU8
    let v ← rdV
    rdMapN rdV n (mapInsert k v acc)

/-- `operator>>(Buffer&, DataMap<K, V>&)` (the map is cleared first). -/
def rdMap {υ : Type} (rdV : Rd υ) : Rd (List (Nat × υ)) := do
  let n ← rdU32
  rdMapN rdV n []

def wfMapOf {υ : Type} (wf : υ → Prop) (m : List (Nat × υ)) : Prop :=
  m.length < 4294967296 ∧ List.Pairwise (fun a b => a.1 < b.1) m ∧
    ∀ p ∈ m, p.1 < 256 ∧ wf p.2

/-! ## Multisets (src/messages.h, DataMultiset<T>)

The only instantiation is `DataMultiset<DataPosition>` (the draw
message's block set), so the embedding fixes the element type.  A
`std::multiset` is a list sorted by `posLt` (non-strictly);
`std::multiset::insert` places a new element after all elements not
greater than it. -/

/-- `std::multiset<DataPosition>::insert`. -/
def msetInsert (p : DPos) : List DPos → List DPos
  | [] => [p]
  | q :: rest => if posLt p q then p :: q :: rest else q :: msetInsert p rest

/-- `operator<<(Buffer&, const DataMultiset<T>&)`. -/
def wrMset (l : List DPos) : List Nat := wrU32 l.length ++ wrElems wrPos l

/-- The element loop of `operator>>(Buffer&, DataMultiset<T>&)`. -/
def rdMsetN : Nat → List DPos → Rd (List DPos)
  | 0, acc => return acc
  | n + 1, acc => do
    let p ← rdPos
    rdMsetN n (msetInsert p acc)

/-- `operator>>(Buffer&, DataMultiset<T>&)` (into a fresh, empty set). -/
def rdMset : Rd (List DPos) := do
  let n ← rdU32
  rdMsetN n []

def wfMset (l : List DPos) : Prop :=
  l.length < 4294967296 ∧ List.Pairwise (fun a b => posLt b a = false) l ∧
    ∀ p ∈ l, wfPos p

/-! ## Events (src/messages.h, DataEvent)

`EventEnum : uint8_t { BombPlaced = 0, BombExploded = 1, PlayerMoved = 2,
BlockPlaced = 3 }`.  The C++ class carries every field; only the fields
of the active variant are serialized, so the wire type is the sum below. -/

inductive DEvent where
  | bombPlaced (bombID : Nat) (position : DPos)
  | bombExploded (bombID : Nat) (playersDestroyed : List Nat)
      (blocksDestroyed : List DPos)
  | playerMoved (playerID : Nat) (position : DPos)
  | blockPlaced (position : DPos)
deriving DecidableEq

/-- `operator<<(Buffer&, const DataEvent&)`: tag byte, then the switch. -/
def wrEvent : DEvent → List Nat
  | .bombPlaced id pos => wrU8 0 ++ wrU32 id ++ wrPos pos
  | .bombExploded id pd bd =>
      wrU8 1 ++ wrU32 id ++ wrList wrU8 pd ++ wrList wrPos bd
  | .playerMoved pid pos => wrU8 2 ++ wrU8 pid ++ wrPos pos
  | .blockPlaced pos => wrU8 3 ++ wrPos pos

/-- `operator>>(Buffer&, DataEvent&)`: tag byte, `BadType` when `> 3`,
then the switch. -/
def rdEvent : Rd DEvent := do
  let tag ← rdU8
  if tag > 3 then throw .badType
  else if tag = 0 then do
    let id ← rdU32
    let pos ← rdPos
    return .bombPlaced id pos
  else if tag = 1 then do
    let id ← rdU32
    let pd ← rdList rdU8
    let bd ← rdList rdPos
    return .bombExploded id pd bd
  else if tag = 2 then do
    let pid ← rdU8
    let pos ← rdPos
    return .playerMoved pid pos
  else do
    let pos ← rdPos
    return .blockPlaced pos

def wfEvent : DEvent → Prop
  | .bombPlaced id pos => id < 4294967296 ∧ wfPos pos
  | .bombExploded id pd bd =>
      id < 4294967296 ∧ wfListOf (· < 256) pd ∧ wfListOf wfPos bd
  | .playerMoved pid pos => pid < 256 ∧ wfPos pos
  | .blockPlaced pos => wfPos pos

/-! ## Top-level messages (src/messages.h)

The four sendable message families.  `bSend` / `bReceive` only flush or
fill the socket buffer and move no bytes of their own, so they are
invisible at the byte-stream level. -/

/-- `ClientMessageEnum { Join = 0, PlaceBomb = 1, PlaceBlock = 2, Move = 3 }`. -/
inductive ClientMsg where
  | join (name : List Nat)
  | placeBomb
  | placeBlock
  | move (direction : Dir)
deriving DecidableEq

/-- `operator<<(Buffer&, const DataClientMessage&)`. -/
def wrClientMsg : ClientMsg → List Nat
  | .join name => wrU8 0 ++ wrString name
  | .placeBomb => wrU8 1
  | .placeBlock => wrU8 2
  | .move d => wrU8 3 ++ wrDir d

/-- `operator>>(Buffer&, DataClientMessage&)`. -/
def rdClientMsg : Rd ClientMsg := do
  let tag ← rdU8
  if tag > 3 then throw .badType
  else if tag = 0 then do
    let name ← rdString
    return .join name
  else if tag = 1 then return .placeBomb
  else if tag = 2 then return .placeBlock
  else do
    let d ← rdDir
    return .move d

def wfClientMsg : ClientMsg → Prop
  | .join name => wfStr name
  | _ => True

/-- `ServerMessageEnum { Hello = 0, AcceptedPlayer = 1, GameStarted = 2,
Turn = 3, GameEnded = 4 }`. -/
inductive ServerMsg where
  | hello (serverName : List Nat)
      (playerCount sizeX sizeY gameLength explosionRadius bombTimer : Nat)
  | acceptedPlayer (playerID : Nat) (player : DPlayer)
  | gameStarted (players : List (Nat × DPlayer))
  | turn (turn : Nat) (events : List DEvent)
  | gameEnded (scores : List (Nat × Nat))
deriving DecidableEq

/-- `operator<<(Buffer&, const DataServerMessage&)`. -/
def wrServerMsg : ServerMsg → List Nat
  | .hello name pc sx sy gl er bt =>
      wrU8 0 ++ wrString name ++ wrU8 pc ++ wrU16 sx ++ wrU16 sy ++
        wrU16 gl ++ wrU16 er ++ wrU16 bt
  | .acceptedPlayer pid p => wrU8 1 ++ wrU8 pid ++ wrPlayer p
  | .gameStarted ps => wrU8 2 ++ wrMap wrPlayer ps
  | .turn t evs => wrU8 3 ++ wrU16 t ++ wrList wrEvent evs
  | .gameEnded sc => wrU8 4 ++ wrMap wrU32 sc

/-- `operator>>(Buffer&, DataServerMessage&)`. -/
def rdServerMsg : Rd ServerMsg := do
  let tag ← rdU8
  if tag > 4 then throw .badType
  else if tag = 0 then do
    let name ← rdString
    let pc ← rdU8
    let sx ← rdU16
    let sy ← rdU16
    let gl ← rdU16
    let er ← rdU16
    let bt ← rdU16
    return .hello name pc sx sy gl er bt
  else if tag = 1 then do
    let pid ← rdU8
    let p ← rdPlayer
    return .acceptedPlayer pid p
  else if tag = 2 then do
    let ps ← rdMap rdPlayer
    return .gameStarted ps
  else if tag = 3 then do
    let t ← rdU16
    let evs ← rdList rdEvent
    return .turn t evs
  else do
    let sc ← rdMap rdU32
    return .gameEnded sc

def wfServerMsg : ServerMsg → Prop
  | .hello name pc sx sy gl er bt =>
      wfStr name ∧ pc < 256 ∧ sx < 65536 ∧ sy < 65536 ∧ gl < 65536 ∧
        er < 65536 ∧ bt < 65536
  | .acceptedPlayer pid p => pid < 256 ∧ wfPlayer p
  | .gameStarted ps => wfMapOf wfPlayer ps
  | .turn t evs => t < 65536 ∧ wfListOf wfEvent evs
  | .gameEnded sc => wfMapOf (· < 4294967296) sc

/-- `InputMessageEnum { PlaceBomb = 0, PlaceBlock = 1, Move = 2 }`. -/
inductive InputMsg where
  | placeBomb
  | placeBlock
  | move (direction : Dir)
deriving DecidableEq

/-- `operator<<(Buffer&, const DataInputMessage&)`. -/
def wrInputMsg : InputMsg → List Nat
  | .placeBomb => wrU8 0
  | .placeBlock => wrU8 1
  | .move d => wrU8 2 ++ wrDir d

/-- `operator>>(Buffer&, DataInputMessage&)`. -/
def rdInputMsg : Rd InputMsg := do
  let tag ← rdU8
  if tag > 2 then throw .badType
  else if tag = 0 then return .placeBomb
  else if tag = 1 then return .placeBlock
  else do
    let d ← rdDir
    return .move d

/-- `DrawMessageEnum { Lobby = 0, Game = 1 }`. -/
inductive DrawMsg where
  | lobby (serverName : List Nat)
      (playerCount sizeX sizeY gameLength explosionRadius bombTimer : Nat)
      (players : List (Nat × DPlayer))
  | game (serverName : List Nat) (sizeX sizeY gameLength turn : Nat)
      (players : List (Nat × DPlayer))
      (playerPositions : List (Nat × DPos)) (blocks : List DPos)
      (bombs : List DBomb) (explosions : List DPos)
      (scores : List (Nat × Nat))
deriving DecidableEq

/-- `operator<<(Buffer&, const DataDrawMessage&)`. -/
def wrDrawMsg : DrawMsg → List Nat
  | .lobby name pc sx sy gl er bt ps =>
      wrU8 0 ++ wrString name ++ wrU8 pc ++ wrU16 sx ++ wrU16 sy ++
        wrU16 gl ++ wrU16 er ++ wrU16 bt ++ wrMap wrPlayer ps
  | .game name sx sy gl t ps pp blocks bombs expl sc =>
      wrU8 1 ++ wrString name ++ wrU16 sx ++ wrU16 sy ++ wrU16 gl ++
        wrU16 t ++ wrMap wrPlayer ps ++ wrMap wrPos pp ++ wrMset blocks ++
        wrList wrBomb bombs ++ wrList wrPos expl ++ wrMap wrU32 sc

/-- `operator>>(Buffer&, DataDrawMessage&)`. -/
def rdDrawMsg : Rd DrawMsg := do
  let tag ← rdU8
  if tag > 1 then throw .badType
  else if tag = 0 then do
    let name ← rdString
    let pc ← rdU8
    let sx ← rdU16
    let sy ← rdU16
    let gl ← rdU16
    let er ← rdU16
    let bt ← rdU16
    let ps ← rdMap rdPlayer
    return .lobby name pc sx sy gl er bt ps
  else do
    let name ← rdString
    let sx ← rdU16
    let sy ← rdU16
    let gl ← rdU16
    let t ← rdU16
    let ps ← rdMap rdPlayer
    let pp ← rdMap rdPos
    let blocks ← rdMset
    let bombs ← rdList rdBomb
    let expl ← rdList rdPos
    let sc ← rdMap rdU32
    return .game name sx sy gl t ps pp blocks bombs expl sc

def wfDrawMsg : DrawMsg → Prop
  | .lobby name pc sx sy gl er bt ps =>
      wfStr name ∧ pc < 256 ∧ sx < 65536 ∧ sy < 65536 ∧ gl < 65536 ∧
        er < 65536 ∧ bt < 65536 ∧ wfMapOf wfPlayer ps
  | .game name sx sy gl t ps pp blocks bombs expl sc =>
      wfStr name ∧ sx < 65536 ∧ sy < 65536 ∧ gl < 65536 ∧ t < 65536 ∧
        wfMapOf wfPlayer ps ∧ wfMapOf wfPos pp ∧ wfMset blocks ∧
        wfListOf wfBomb bombs ∧ wfListOf wfPos expl ∧
        wfMapOf (· < 4294967296) sc

/-! ### Decidability of well-formedness (used by concrete witnesses) -/

instance {α : Type} (wf : α → Prop) [DecidablePred wf] (l : List α) :
    Decidable (wfListOf wf l) := by
  unfold wfListOf; infer_instance

instance {υ : Type} (wf : υ → Prop) [DecidablePred wf] (m : List (Nat × υ)) :
    Decidable (wfMapOf wf m) := by
  unfold wfMapOf; infer_instance

instance (l : List DPos) : Decidable (wfMset l) := by
  unfold wfMset; infer_instance

instance (e : DEvent) : Decidable (wfEvent e) := by
  cases e <;> (unfold wfEvent; infer_instance)

instance (m : ClientMsg) : Decidable (wfClientMsg m) := by
  cases m <;> (unfold wfClientMsg; infer_instance)

instance (m : ServerMsg) : Decidable (wfServerMsg m) := by
  cases m <;> (unfold wfServerMsg; infer_instance)

instance (m : DrawMsg) : Decidable (wfDrawMsg m) := by
  cases m <;> (unfold wfDrawMsg; infer_instance)

/-- The `Hello` message of spec scenario S1, used as a concrete witness. -/
def helloS1 : ServerMsg := .hello [115, 114, 118] 2 10 10 5 2 3

/-! ## Explosion ray-casting

Both programs cast four axial rays from the bomb position, each ray
stopping at (and including) the first block.  The candidate cells of a
ray mirror the `for` loop bounds of the C++ code for a bomb inside the
board: e.g. the leftward loop runs from `x` down to
`leftX = max(0, x - radius)`, i.e. over `min radius x + 1` cells. -/

/-- Walk candidate cells in ray order, keeping every visited cell and
stopping after the first cell that holds a block (the `break` /
`return false` of the loops). -/
def rayTake (blocks : List DPos) : List DPos → List DPos
  | [] => []
  | c :: rest => c :: (if c ∈ blocks then [] else rayTake blocks rest)

/-- Leftward ray candidates of the client loop: `x` down to `max(0, x−r)`. -/
def candLeft (r x y : Nat) : List DPos :=
  (List.range (min r x + 1)).map (fun i => ⟨x - i, y⟩)

/-- Rightward ray candidates: `x` up to `min(sizeX−1, x+r)`. -/
def candRight (r sizeX x y : Nat) : List DPos :=
  (List.range (min r (sizeX - 1 - x) + 1)).map (fun i => ⟨x + i, y⟩)

/-- Downward ray candidates: `y` down to `max(0, y−r)`. -/
def candDown (r x y : Nat) : List DPos :=
  (List.range (min r y + 1)).map (fun i => ⟨x, y - i⟩)

/-- Upward ray candidates: `y` up to `min(sizeY−1, y+r)`. -/
def candUp (r sizeY x y : Nat) : List DPos :=
  (List.range (min r (sizeY - 1 - y) + 1)).map (fun i => ⟨x, y + i⟩)

/-- The cells inserted into `outDrawMessage.explosions` by the
`BombExploded` case of `Client::processTurnMessage`
(src/robots-client.cpp:138-178): four loops, each starting at the bomb
cell and breaking just after the first block. -/
def clientExplosion (sizeX sizeY r : Nat) (blocks : List DPos) (p : DPos) :
    List DPos :=
  rayTake blocks (candLeft r p.x p.y) ++
    rayTake blocks (candRight r sizeX p.x p.y) ++
      rayTake blocks (candDown r p.x p.y) ++
        rayTake blocks (candUp r sizeY p.x p.y)

/-- Server-side ray candidates start one cell away from the bomb:
`x − 1` down to `max(0, x−r)`, and so on. -/
def candLeftTail (r x y : Nat) : List DPos :=
  (List.range (min r x)).map (fun i => ⟨x - (i + 1), y⟩)

def candRightTail (r sizeX x y : Nat) : List DPos :=
  (List.range (min r (sizeX - 1 - x))).map (fun i => ⟨x + (i + 1), y⟩)

def candDownTail (r x y : Nat) : List DPos :=
  (List.range (min r y)).map (fun i => ⟨x, y - (i + 1)⟩)

def candUpTail (r sizeY x y : Nat) : List DPos :=
  (List.range (min r (sizeY - 1 - y))).map (fun i => ⟨x, y + (i + 1)⟩)

/-- The cells passed to `Server::processExplosion` for one bomb
(src/robots-server.cpp:400-440): the bomb cell first; if it holds a
block the explosion ends there (`processExplosion` returns `false`),
otherwise four loops starting one cell away, each stopping after the
first block. -/
def serverExplosion (sizeX sizeY r : Nat) (blocks : List DPos) (p : DPos) :
    List DPos :=
  if p ∈ blocks then [p]
  else
    p :: (rayTake blocks (candLeftTail r p.x p.y) ++
      rayTake blocks (candRightTail r sizeX p.x p.y) ++
        rayTake blocks (candDownTail r p.x p.y) ++
          rayTake blocks (candUpTail r sizeY p.x p.y))

/-- The blocks recorded in the event's `blocksDestroyed` list:
`processExplosion` pushes every visited cell that holds a block. -/
def serverDestroyedBlocks (sizeX sizeY r : Nat) (blocks : List DPos)
    (p : DPos) : List DPos :=
  (serverExplosion sizeX sizeY r blocks p).filter (· ∈ blocks)

/-- One step of length `i` from the bomb cell in each axial direction
(the claim's "consecutive cells up to explosionRadius away"). -/
def cellAt (p : DPos) : Dir → Nat → DPos
  | .left, i => ⟨p.x - i, p.y⟩
  | .right, i => ⟨p.x + i, p.y⟩
  | .down, i => ⟨p.x, p.y - i⟩
  | .up, i => ⟨p.x, p.y + i⟩

/-- Whether the cell `i` steps away in direction `d` is still on the
`sizeX × sizeY` board (for a bomb cell that is itself on the board). -/
def stepInBoard (sizeX sizeY : Nat) (p : DPos) : Dir → Nat → Prop
  | .left, i => i ≤ p.x
  | .right, i => p.x + i ≤ sizeX - 1
  | .down, i => i ≤ p.y
  | .up, i => p.y + i ≤ sizeY - 1

/-- The claim's description of the explosion set: the bomb's own cell
plus, in each of the four axial directions, the consecutive cells up to
`r` away clipped to the board, where each ray stops at and includes the
first cell containing a block (the bomb cell itself counts as the first
cell of every ray). -/
def specExplosionMem (sizeX sizeY r : Nat) (blocks : List DPos)
    (p c : DPos) : Prop :=
  ∃ (d : Dir) (i : Nat), i ≤ r ∧ stepInBoard sizeX sizeY p d i ∧
    c = cellAt p d i ∧ ∀ j < i, cellAt p d j ∉ blocks

/-! ## The client (src/robots-client.cpp)

The client keeps a `GameState`, the draw message it mutates in place,
and the bookkeeping maps `activeBombs`, `destroyedPlayers`,
`destroyedBlocks`.  `activeBombs` is a `std::unordered_map`, modelled as
an association list (iteration order of the C++ map is unspecified;
every property proved below is order-independent).  The draw message's
`players`/`playerPositions`/`scores` are `std::map`s, modelled as
key-sorted association lists, and `blocks` is a `std::multiset`. -/

/-- `GameState { Lobby, Game }` (used by both executables). -/
inductive GameState where
  | lobby
  | game
deriving DecidableEq

/-- `std::unordered_map` lookup (`find` / presence test). -/
def alLookup {β : Type} (k : Nat) : List (Nat × β) → Option β
  | [] => none
  | (k', v) :: rest => if k = k' then some v else alLookup k rest

/-- `std::unordered_map` `operator[] = v`: overwrite or append. -/
def alInsert {β : Type} (k : Nat) (v : β) : List (Nat × β) → List (Nat × β)
  | [] => [(k, v)]
  | (k', v') :: rest =>
    if k = k' then (k, v) :: rest else (k', v') :: alInsert k v rest

/-- `std::unordered_map::erase(k)`: the map's keys are unique, so
erasing the key drops exactly the pairs keyed by it. -/
def alErase {β : Type} (k : Nat) : List (Nat × β) → List (Nat × β)
  | [] => []
  | (k', v') :: rest =>
    if k = k' then alErase k rest else (k', v') :: alErase k rest

/-- `std::map` `operator[] = v` on a key-sorted association list. -/
def smInsert {β : Type} (k : Nat) (v : β) : List (Nat × β) → List (Nat × β)
  | [] => [(k, v)]
  | (k', v') :: rest =>
    if k < k' then (k, v) :: (k', v') :: rest
    else if k' < k then (k', v') :: smInsert k v rest
    else (k, v) :: rest

/-- `scores.map[{playerID}].value++`: `operator[]` default-inserts 0,
then the `uint32_t` value is incremented. -/
def bumpScore (k : Nat) : List (Nat × Nat) → List (Nat × Nat)
  | [] => [(k, 1 % 4294967296)]
  | (k', v) :: rest =>
    if k < k' then (k, 1 % 4294967296) :: (k', v) :: rest
    else if k' < k then (k', v) :: bumpScore k rest
    else (k', (v + 1) % 4294967296) :: rest

/-- `std::set<uint8_t>::insert` on a sorted list of player ids. -/
def ssInsert (k : Nat) : List Nat → List Nat
  | [] => [k]
  | k' :: rest =>
    if k < k' then k :: k' :: rest
    else if k' < k then k' :: ssInsert k rest
    else k' :: rest

/-- `std::set<DataPosition>::insert` on a `posLt`-sorted list. -/
def spInsert (p : DPos) : List DPos → List DPos
  | [] => [p]
  | q :: rest =>
    if posLt p q then p :: q :: rest
    else if posLt q p then q :: spInsert p rest
    else q :: rest

/-- `std::multiset<DataPosition>::erase(value)`: removes every element
equal to the value. -/
def msetErase (p : DPos) (l : List DPos) : List DPos := l.filter (· ≠ p)

/-- The client's mutable state: the `GameState`, the draw message being
accumulated, and the bomb bookkeeping.  `bombTimer` is the value carried
by the last `Hello`: it is stored both in the draw message and in the
reused incoming-message object whose `bombTimer` field the `BombPlaced`
case reads (a `Turn` parse never overwrites that field). -/
structure ClientState where
  mode : GameState
  serverName : List Nat
  playerCount : Nat
  sizeX : Nat
  sizeY : Nat
  gameLength : Nat
  explosionRadius : Nat
  bombTimer : Nat
  turn : Nat
  players : List (Nat × DPlayer)
  playerPositions : List (Nat × DPos)
  blocks : List DPos
  activeBombs : List (Nat × DBomb)
  bombs : List DBomb
  explosions : List DPos
  scores : List (Nat × Nat)
deriving DecidableEq

/-- `uint16_t` decrement with wrap-around
(`entry.second.timer.value--`). -/
def decTimer (v : Nat) : Nat := (v + 65535) % 65536

/-- One iteration of the event loop of `Client::processTurnMessage`,
also threading the per-turn `destroyedPlayers` / `destroyedBlocks`
sets.  In the `BombExploded` case `activeBombs[id]` default-inserts a
bomb at position (0,0) when the id is unknown and the entry is erased
at the end of the case, so the net effect on the map is captured by
`getD` + `alErase`. -/
def processEvent (st : ClientState) (dp : List Nat) (db : List DPos) :
    DEvent → ClientState × List Nat × List DPos
  | .bombPlaced id pos =>
      ({ st with activeBombs :=
          alInsert id ⟨pos, st.bombTimer⟩ st.activeBombs }, dp, db)
  | .bombExploded id pd bd =>
      let bpos := ((alLookup id st.activeBombs).getD ⟨⟨0, 0⟩, 0⟩).position
      ({ st with
          explosions := st.explosions ++
            clientExplosion st.sizeX st.sizeY st.explosionRadius st.blocks
              bpos
          activeBombs := alErase id st.activeBombs },
        pd.foldl (fun acc i => ssInsert i acc) dp,
        bd.foldl (fun acc b => spInsert b acc) db)
  | .playerMoved pid pos =>
      ({ st with playerPositions := smInsert pid pos st.playerPositions },
        dp, db)
  | .blockPlaced pos =>
      ({ st with blocks := msetInsert pos st.blocks }, dp, db)

def processEvents (st : ClientState) (dp : List Nat) (db : List DPos) :
    List DEvent → ClientState × List Nat × List DPos
  | [] => (st, dp, db)
  | e :: es =>
    processEvents (processEvent st dp db e).1 (processEvent st dp db e).2.1
      (processEvent st dp db e).2.2 es

/-- `Client::processTurnMessage`: decrement all live bomb timers and
clear the explosion set, set the turn number, process the events in
order, rebuild the `bombs` list from `activeBombs`, award a point per
destroyed player, and finally remove the destroyed blocks. -/
def processTurn (st : ClientState) (turnNo : Nat) (events : List DEvent) :
    ClientState :=
  let st1 := { st with
    activeBombs := st.activeBombs.map
      (fun kb => (kb.1, ⟨kb.2.position, decTimer kb.2.timer⟩))
    explosions := []
    turn := turnNo }
  let r : ClientState × List Nat × List DPos := processEvents st1 [] [] events
  let st2 : ClientState := r.1
  let st3 := { st2 with bombs := st2.activeBombs.map Prod.snd }
  let st4 := { st3 with
    scores := r.2.1.foldl (fun sc i => bumpScore i sc) st3.scores }
  { st4 with blocks := r.2.2.foldl (fun bl b => msetErase b bl) st4.blocks }

/-- `Client::processServerMessage` (the per-turn destroyed sets are
cleared before the dispatch and only used inside `processTurn`). -/
def processServerMessage (st : ClientState) : ServerMsg → ClientState
  | .hello name pc sx sy gl er bt =>
      { st with
        serverName := name
        playerCount := pc
        sizeX := sx
        sizeY := sy
        gameLength := gl
        explosionRadius := er
        bombTimer := bt }
  | .acceptedPlayer pid p =>
      { st with
        players := mapInsert pid p st.players
        scores := mapInsert pid 0 st.scores }
  | .gameStarted ps =>
      { st with
        mode := .game
        players := ps
        playerPositions := []
        blocks := []
        scores := ps.foldl (fun sc kp => smInsert kp.1 0 sc) [] }
  | .turn t evs => processTurn st t evs
  | .gameEnded sc =>
      { st with
        mode := .lobby
        activeBombs := []
        playerPositions := []
        blocks := []
        bombs := []
        scores := sc }

/-- `Client::processInputMessage`: in the lobby every GUI input becomes
`Join(playerName)`; in game the input is forwarded. -/
def processInputMessage (mode : GameState) (playerName : List Nat) :
    InputMsg → ClientMsg
  | m =>
    match mode with
    | .lobby => .join playerName
    | .game =>
      match m with
      | .placeBomb => .placeBomb
      | .placeBlock => .placeBlock
      | .move d => .move d

/-- Folding a sequence of `Turn` messages (turn number, events). -/
def foldTurns (st : ClientState) (ts : List (Nat × List DEvent)) :
    ClientState :=
  ts.foldl (fun s t => processTurn s t.1 t.2) st

/-- Whether an event mentions bomb `id` (places or explodes it). -/
def touchesBomb (id : Nat) : DEvent → Bool
  | .bombPlaced j _ => j == id
  | .bombExploded j _ _ => j == id
  | _ => false

/-- Whether an event is `BombPlaced` for bomb `id`. -/
def placesBomb (id : Nat) : DEvent → Bool
  | .bombPlaced j _ => j == id
  | _ => false

/-- A concrete in-game client state used by witnesses. -/
def clientStateEx : ClientState :=
  { mode := .game
    serverName := []
    playerCount := 1
    sizeX := 5
    sizeY := 5
    gameLength := 10
    explosionRadius := 3
    bombTimer := 10
    turn := 0
    players := []
    playerPositions := []
    blocks := []
    activeBombs := []
    bombs := []
    explosions := []
    scores := [] }

/-! ## The server's bomb queue (src/robots-server.cpp)

`Server::bombs` is a `std::priority_queue<std::pair<DataBomb, DataU32>,
…, std::greater<>>`: a min-queue whose element order is the
lexicographic pair order — `DataBomb::operator<` (timer, then position)
and then the bomb id.  A priority-queue state is abstracted as the
ascendingly sorted list of its elements (ids are unique, so the
comparator is total on queue elements and the pop sequence is exactly
the sorted order); `pop` takes the head. -/

/-- `std::pair<DataBomb, DataU32>` `operator<` (synthesized
lexicographic comparison). -/
def pairLt (a b : DBomb × Nat) : Bool :=
  if bombLt a.1 b.1 then true
  else if bombLt b.1 a.1 then false
  else a.2 < b.2

/-- The pop loop of `Server::processExplosions`:
`while (!bombs.empty() && bombs.top().first.timer.value == turn)` pop
the top and emit one `BombExploded` event for it.  The result is the
sequence of popped bombs in event-emission order. -/
def explodeLoop (turn : Nat) : List (DBomb × Nat) → List (DBomb × Nat)
  | [] => []
  | (b, id) :: rest =>
    if b.timer = turn then (b, id) :: explodeLoop turn rest else []

/-- The counterexample queue: two bombs both scheduled for turn 3, bomb
0 at (5,0) inserted first, bomb 1 at (1,0) inserted second. -/
def cqEx : List (DBomb × Nat) := [(⟨⟨1, 0⟩, 3⟩, 1), (⟨⟨5, 0⟩, 3⟩, 0)]

/-! ## The server PRNG and turn 0 (src/utils.h, src/robots-server.cpp)

`Random::next` computes `seed = seed * 48271 % (2^31 − 1)` in
`uint64_t` arithmetic and returns the new seed.  `Server::startGame`
draws `x = next() % sizeX` then `y = next() % sizeY` for each player in
ascending playerID order, then up to `initialBlocks` block positions,
skipping draws that land on an already-blocked cell. -/

/-- `Random::next` (the multiplication is `uint64_t`). -/
def rngNext (seed : Nat) : Nat :=
  seed * 48271 % 18446744073709551616 % 2147483647

/-- One position draw: two PRNG calls, `% sizeX` then `% sizeY`; also
returns the seed after the draw. -/
def drawPos (sizeX sizeY seed : Nat) : DPos × Nat :=
  let s1 := rngNext seed
  let s2 := rngNext s1
  (⟨s1 % sizeX, s2 % sizeY⟩, s2)

/-- The player-placement loop of `Server::startGame`: one `PlayerMoved`
event per player, in ascending playerID order starting at `pid`. -/
def playersLoop (sizeX sizeY : Nat) : Nat → Nat → Nat → List DEvent × Nat
  | _, 0, seed => ([], seed)
  | pid, n + 1, seed =>
    let d := drawPos sizeX sizeY seed
    let r := playersLoop sizeX sizeY (pid + 1) n d.2
    (DEvent.playerMoved pid d.1 :: r.1, r.2)

/-- The initial-block loop of `Server::startGame`: `initialBlocks`
draws; a draw landing on an already-blocked cell is skipped silently,
otherwise the cell is added and a `BlockPlaced` emitted. -/
def blocksLoop (sizeX sizeY : Nat) :
    Nat → Nat → List DPos → List DEvent × Nat × List DPos
  | 0, seed, blocks => ([], seed, blocks)
  | n + 1, seed, blocks =>
    let d := drawPos sizeX sizeY seed
    if d.1 ∈ blocks then blocksLoop sizeX sizeY n d.2 blocks
    else
      let r := blocksLoop sizeX sizeY n d.2 (d.1 :: blocks)
      (DEvent.blockPlaced d.1 :: r.1, r.2)

/-- The Turn 0 event list built by `Server::startGame`. -/
def turn0Events (seed sizeX sizeY playerCount initialBlocks : Nat) :
    List DEvent :=
  let p := playersLoop sizeX sizeY 0 playerCount seed
  let b := blocksLoop sizeX sizeY initialBlocks p.2 []
  p.1 ++ b.1

/-! ## Theorems -/

/-! ### Reader composition lemmas -/

theorem bind_ok {α β : Type} {x : Rd α} {f : α → Rd β} {s s' : List Nat}
    {a : α} {r : EStateM.Result ReadErr (List Nat) β}
    (h₁ : x s = .ok a s') (h₂ : f a s' = r) : (x >>= f) s = r := by
  simp [Bind.bind, EStateM.bind, h₁, h₂]

theorem bind_err {α β : Type} {x : Rd α} {f : α → Rd β} {s s' : List Nat}
    {e : ReadErr} (h₁ : x s = .error e s') :
    (x >>= f) s = .error e s' := by
  simp [Bind.bind, EStateM.bind, h₁]

theorem pure_ok {α : Type} {a : α} {s : List Nat} :
    (pure a : Rd α) s = .ok a s := rfl

theorem map_ok {α β : Type} {x : Rd α} {f : α → β} {s s' : List Nat} {a : α}
    (h : x s = .ok a s') : (f <$> x) s = .ok (f a) s' := by
  simp [Functor.map, EStateM.map, h]

theorem throw_err {α : Type} {e : ReadErr} {s : List Nat} :
    (throw e : Rd α) s = .error e s := rfl

theorem rdU8_cons {b : Nat} {rest : List Nat} :
    rdU8 (b :: rest) = .ok b rest := rfl

/-! ### Primitive round trips -/

theorem rt_u8 {v : Nat} (hv : v < 256) (rest : List Nat) :
    rdU8 (wrU8 v ++ rest) = .ok v rest := by
  simp [wrU8, rdU8, Nat.mod_eq_of_lt hv]

theorem rt_u16 {v : Nat} (hv : v < 65536) (rest : List Nat) :
    rdU16 (wrU16 v ++ rest) = .ok v rest := by
  have h1 : v / 256 % 256 = v / 256 :=
    Nat.mod_eq_of_lt (by omega)
  refine bind_ok rdU8_cons (bind_ok rdU8_cons ?_)
  rw [pure_ok.trans rfl]
  congr 1
  omega

theorem rt_u32 {v : Nat} (hv : v < 4294967296) (rest : List Nat) :
    rdU32 (wrU32 v ++ rest) = .ok v rest := by
  refine bind_ok rdU8_cons (bind_ok rdU8_cons (bind_ok rdU8_cons
    (bind_ok rdU8_cons ?_)))
  rw [pure_ok.trans rfl]
  congr 1
  omega

theorem rt_bytes {s : List Nat} (rest : List Nat) :
    rdBytes s.length (s ++ rest) = .ok s rest := by
  induction s with
  | nil => simp [rdBytes]; rfl
  | cons b bs ih =>
    simpa [rdBytes] using bind_ok rdU8_cons (map_ok ih)

theorem rt_str {s : List Nat} (hs : wfStr s) (rest : List Nat) :
    rdString (wrString s ++ rest) = .ok s rest := by
  have hlen : s.length % 256 = s.length :=
    Nat.mod_eq_of_lt (Nat.lt_of_le_of_lt hs.1 (by norm_num))
  unfold rdString wrString wrU8
  refine bind_ok (rdU8_cons) ?_
  rw [hlen]
  exact rt_bytes rest

theorem rt_pos {p : DPos} (hp : wfPos p) (rest : List Nat) :
    rdPos (wrPos p ++ rest) = .ok p rest := by
  unfold rdPos wrPos
  rw [List.append_assoc]
  exact bind_ok (rt_u16 hp.1 _) (map_ok (rt_u16 hp.2 rest))

theorem rt_player {p : DPlayer} (hp : wfPlayer p) (rest : List Nat) :
    rdPlayer (wrPlayer p ++ rest) = .ok p rest := by
  unfold rdPlayer wrPlayer
  rw [List.append_assoc]
  exact bind_ok (rt_str hp.1 _) (map_ok (rt_str hp.2 rest))

theorem rt_bomb {b : DBomb} (hb : wfBomb b) (rest : List Nat) :
    rdBomb (wrBomb b ++ rest) = .ok b rest := by
  unfold rdBomb wrBomb
  rw [List.append_assoc]
  exact bind_ok (rt_pos hb.1 _) (map_ok (rt_u16 hb.2 rest))

theorem rt_dir (d : Dir) (rest : List Nat) :
    rdDir (wrDir d ++ rest) = .ok d rest := by
  cases d <;> exact bind_ok rdU8_cons rfl

theorem rdDir_badTag {b : Nat} (hb : 3 < b) (rest : List Nat) :
    rdDir (b :: rest) = .error .badType rest := by
  refine bind_ok rdU8_cons ?_
  simp [hb]
  rfl

theorem rt_listN {α : Type} {rd : Rd α} {wr : α → List Nat} {wf : α → Prop}
    (hrt : ∀ {a : α}, wf a → ∀ rest, rd (wr a ++ rest) = .ok a rest)
    {l : List α} (hl : ∀ a ∈ l, wf a) (rest : List Nat) :
    rdListN rd l.length (wrElems wr l ++ rest) = .ok l rest := by
  induction l with
  | nil => simp [rdListN, wrElems]; rfl
  | cons a as ih =>
    have ha := hl a (List.mem_cons_self a as)
    have has : ∀ x ∈ as, wf x := fun x hx => hl x (List.mem_cons_of_mem a hx)
    simp only [List.length_cons, rdListN, wrElems, List.append_assoc]
    exact bind_ok (hrt ha _) (bind_ok (ih has) pure_ok)

theorem rt_list {α : Type} {rd : Rd α} {wr : α → List Nat} {wf : α → Prop}
    (hrt : ∀ {a : α}, wf a → ∀ rest, rd (wr a ++ rest) = .ok a rest)
    {l : List α} (hl : wfListOf wf l) (rest : List Nat) :
    rdList rd (wrList wr l ++ rest) = .ok l rest := by
  unfold rdList wrList
  rw [List.append_assoc]
  exact bind_ok (rt_u32 hl.1 _) (rt_listN hrt hl.2 rest)

theorem mapInsert_append {υ : Type} {k : Nat} {v : υ} {acc : List (Nat × υ)}
    (h : ∀ p ∈ acc, p.1 < k) : mapInsert k v acc = acc ++ [(k, v)] := by
  induction acc with
  | nil => rfl
  | cons p rest ih =>
    obtain ⟨k', v'⟩ := p
    have hk' : k' < k := h (k', v') (List.mem_cons_self _ _)
    simp only [mapInsert, if_neg (by omega : ¬ k < k'), if_pos hk',
      List.cons_append, List.cons.injEq, true_and]
    exact ih (fun p hp => h p (List.mem_cons_of_mem _ hp))

theorem rt_mapN {υ : Type} {rdV : Rd υ} {wrV : υ → List Nat} {wf : υ → Prop}
    (hrt : ∀ {v : υ}, wf v → ∀ rest, rdV (wrV v ++ rest) = .ok v rest)
    {m acc : List (Nat × υ)}
    (hsort : List.Pairwise (fun a b => a.1 < b.1) m)
    (hm : ∀ p ∈ m, p.1 < 256 ∧ wf p.2)
    (hacc : ∀ p ∈ acc, ∀ q ∈ m, p.1 < q.1) (rest : List Nat) :
    rdMapN rdV m.length acc (wrMapElems wrV m ++ rest) = .ok (acc ++ m) rest := by
  induction m generalizing acc with
  | nil => simp [rdMapN, wrMapElems]; rfl
  | cons p ps ih =>
    obtain ⟨k, v⟩ := p
    have hkv := hm (k, v) (List.mem_cons_self _ _)
    have hps : ∀ q ∈ ps, (k, v).1 < q.1 := by
      intro q hq
      exact (List.pairwise_cons.mp hsort).1 q hq
    simp only [List.length_cons, rdMapN, wrMapElems, List.append_assoc]
    refine bind_ok (rt_u8 hkv.1 _) (bind_ok (hrt hkv.2 _) ?_)
    have hins : mapInsert k v acc = acc ++ [(k, v)] :=
      mapInsert_append (fun q hq => hacc q hq (k, v) (List.mem_cons_self _ _))
    rw [hins]
    have haccx : ∀ q ∈ acc ++ [(k, v)], ∀ r ∈ ps, q.1 < r.1 := by
      intro q hq r hr
      rcases List.mem_append.mp hq with h | h
      · exact hacc q h r (List.mem_cons_of_mem _ hr)
      · simp only [List.mem_singleton] at h
        subst h
        exact hps r hr
    have := ih (List.pairwise_cons.mp hsort).2
      (fun q hq => hm q (List.mem_cons_of_mem _ hq)) haccx
    simpa only [List.append_assoc, List.singleton_append] using this

theorem rt_map {υ : Type} {rdV : Rd υ} {wrV : υ → List Nat} {wf : υ → Prop}
    (hrt : ∀ {v : υ}, wf v → ∀ rest, rdV (wrV v ++ rest) = .ok v rest)
    {m : List (Nat × υ)} (hm : wfMapOf wf m) (rest : List Nat) :
    rdMap rdV (wrMap wrV m ++ rest) = .ok m rest := by
  unfold rdMap wrMap
  rw [List.append_assoc]
  refine bind_ok (rt_u32 hm.1 _) ?_
  simpa using rt_mapN hrt hm.2.1 hm.2.2 (by simp) rest

theorem msetInsert_append {p : DPos} {acc : List DPos}
    (h : ∀ q ∈ acc, posLt p q = false) : msetInsert p acc = acc ++ [p] := by
  induction acc with
  | nil => rfl
  | cons q rest ih =>
    simp only [msetInsert, h q (List.mem_cons_self _ _), Bool.false_eq_true,
      if_false, List.cons_append, List.cons.injEq, true_and]
    exact ih (fun r hr => h r (List.mem_cons_of_mem _ hr))

theorem rt_msetN {m acc : List DPos}
    (hsort : List.Pairwise (fun a b => posLt b a = false) m)
    (hm : ∀ p ∈ m, wfPos p)
    (hacc : ∀ q ∈ acc, ∀ p ∈ m, posLt p q = false) (rest : List Nat) :
    rdMsetN m.length acc (wrElems wrPos m ++ rest) = .ok (acc ++ m) rest := by
  induction m generalizing acc with
  | nil => simp [rdMsetN, wrElems]; rfl
  | cons p ps ih =>
    simp only [List.length_cons, rdMsetN, wrElems, List.append_assoc]
    refine bind_ok (rt_pos (hm p (List.mem_cons_self _ _)) _) ?_
    have hins : msetInsert p acc = acc ++ [p] :=
      msetInsert_append (fun q hq => hacc q hq p (List.mem_cons_self _ _))
    rw [hins]
    have haccx : ∀ q ∈ acc ++ [p], ∀ r ∈ ps, posLt r q = false := by
      intro q hq r hr
      rcases List.mem_append.mp hq with h | h
      · exact hacc q h r (List.mem_cons_of_mem _ hr)
      · simp only [List.mem_singleton] at h
        subst h
        exact (List.pairwise_cons.mp hsort).1 r hr
    have := ih (List.pairwise_cons.mp hsort).2
      (fun q hq => hm q (List.mem_cons_of_mem _ hq)) haccx
    simpa only [List.append_assoc, List.singleton_append] using this

theorem rt_mset {m : List DPos} (hm : wfMset m) (rest : List Nat) :
    rdMset (wrMset m ++ rest) = .ok m rest := by
  unfold rdMset wrMset
  rw [List.append_assoc]
  refine bind_ok (rt_u32 hm.1 _) ?_
  simpa using rt_msetN hm.2.1 hm.2.2 (by simp) rest

theorem rt_event {e : DEvent} (he : wfEvent e) (rest : List Nat) :
    rdEvent (wrEvent e ++ rest) = .ok e rest := by
  cases e with
  | bombPlaced id pos =>
    obtain ⟨h1, h2⟩ := he
    simp only [wrEvent, List.append_assoc]
    refine bind_ok rdU8_cons ?_
    exact bind_ok (rt_u32 h1 _) (map_ok (rt_pos h2 rest))
  | bombExploded id pd bd =>
    obtain ⟨h1, h2, h3⟩ := he
    simp only [wrEvent, List.append_assoc]
    refine bind_ok rdU8_cons ?_
    exact bind_ok (rt_u32 h1 _)
      (bind_ok (rt_list (fun ha => rt_u8 ha) h2 _)
        (map_ok (rt_list (fun ha => rt_pos ha) h3 rest)))
  | playerMoved pid pos =>
    obtain ⟨h1, h2⟩ := he
    simp only [wrEvent, List.append_assoc]
    refine bind_ok rdU8_cons ?_
    exact bind_ok (rt_u8 h1 _) (map_ok (rt_pos h2 rest))
  | blockPlaced pos =>
    simp only [wrEvent, List.append_assoc]
    refine bind_ok rdU8_cons ?_
    exact map_ok (rt_pos he rest)

theorem rdEvent_badTag {b : Nat} (hb : 3 < b) (rest : List Nat) :
    rdEvent (b :: rest) = .error .badType rest := by
  refine bind_ok rdU8_cons ?_
  simp [hb]
  rfl

theorem rt_clientMsg {m : ClientMsg} (hm : wfClientMsg m) (rest : List Nat) :
    rdClientMsg (wrClientMsg m ++ rest) = .ok m rest := by
  cases m with
  | join name =>
    simp only [wrClientMsg, List.append_assoc]
    exact bind_ok rdU8_cons (map_ok (rt_str hm rest))
  | placeBomb => exact bind_ok rdU8_cons rfl
  | placeBlock => exact bind_ok rdU8_cons rfl
  | move d =>
    simp only [wrClientMsg, List.append_assoc]
    exact bind_ok rdU8_cons (map_ok (rt_dir d rest))

theorem rdClientMsg_badTag {b : Nat} (hb : 3 < b) (rest : List Nat) :
    rdClientMsg (b :: rest) = .error .badType rest := by
  refine bind_ok rdU8_cons ?_
  simp [hb]
  rfl

theorem rt_serverMsg {m : ServerMsg} (hm : wfServerMsg m) (rest : List Nat) :
    rdServerMsg (wrServerMsg m ++ rest) = .ok m rest := by
  cases m with
  | hello name pc sx sy gl er bt =>
    obtain ⟨h1, h2, h3, h4, h5, h6, h7⟩ := hm
    simp only [wrServerMsg, List.append_assoc]
    refine bind_ok rdU8_cons ?_
    exact bind_ok (rt_str h1 _) (bind_ok (rt_u8 h2 _) (bind_ok (rt_u16 h3 _)
      (bind_ok (rt_u16 h4 _) (bind_ok (rt_u16 h5 _) (bind_ok (rt_u16 h6 _)
        (map_ok (rt_u16 h7 rest)))))))
  | acceptedPlayer pid p =>
    obtain ⟨h1, h2⟩ := hm
    simp only [wrServerMsg, List.append_assoc]
    refine bind_ok rdU8_cons ?_
    exact bind_ok (rt_u8 h1 _) (map_ok (rt_player h2 rest))
  | gameStarted ps =>
    simp only [wrServerMsg, List.append_assoc]
    refine bind_ok rdU8_cons ?_
    exact map_ok (rt_map (fun hp => rt_player hp) hm rest)
  | turn t evs =>
    obtain ⟨h1, h2⟩ := hm
    simp only [wrServerMsg, List.append_assoc]
    refine bind_ok rdU8_cons ?_
    exact bind_ok (rt_u16 h1 _)
      (map_ok (rt_list (fun he => rt_event he) h2 rest))
  | gameEnded sc =>
    simp only [wrServerMsg, List.append_assoc]
    refine bind_ok rdU8_cons ?_
    exact map_ok (rt_map (fun hv => rt_u32 hv) hm rest)

theorem rdServerMsg_badTag {b : Nat} (hb : 4 < b) (rest : List Nat) :
    rdServerMsg (b :: rest) = .error .badType rest := by
  refine bind_ok rdU8_cons ?_
  simp [hb]
  rfl

theorem rt_inputMsg (m : InputMsg) (rest : List Nat) :
    rdInputMsg (wrInputMsg m ++ rest) = .ok m rest := by
  cases m with
  | placeBomb => exact bind_ok rdU8_cons rfl
  | placeBlock => exact bind_ok rdU8_cons rfl
  | move d =>
    simp only [wrInputMsg, List.append_assoc]
    exact bind_ok rdU8_cons (map_ok (rt_dir d rest))

theorem rdInputMsg_badTag {b : Nat} (hb : 2 < b) (rest : List Nat) :
    rdInputMsg (b :: rest) = .error .badType rest := by
  refine bind_ok rdU8_cons ?_
  simp [hb]
  rfl

theorem rt_drawMsg {m : DrawMsg} (hm : wfDrawMsg m) (rest : List Nat) :
    rdDrawMsg (wrDrawMsg m ++ rest) = .ok m rest := by
  cases m with
  | lobby name pc sx sy gl er bt ps =>
    obtain ⟨h1, h2, h3, h4, h5, h6, h7, h8⟩ := hm
    simp only [wrDrawMsg, List.append_assoc]
    refine bind_ok rdU8_cons ?_
    exact bind_ok (rt_str h1 _) (bind_ok (rt_u8 h2 _) (bind_ok (rt_u16 h3 _)
      (bind_ok (rt_u16 h4 _) (bind_ok (rt_u16 h5 _) (bind_ok (rt_u16 h6 _)
        (bind_ok (rt_u16 h7 _)
          (map_ok (rt_map (fun hp => rt_player hp) h8 rest))))))))
  | game name sx sy gl t ps pp blocks bombs expl sc =>
    obtain ⟨h1, h2, h3, h4, h5, h6, h7, h8, h9, h10, h11⟩ := hm
    simp only [wrDrawMsg, List.append_assoc]
    refine bind_ok rdU8_cons ?_
    exact bind_ok (rt_str h1 _) (bind_ok (rt_u16 h2 _) (bind_ok (rt_u16 h3 _)
      (bind_ok (rt_u16 h4 _) (bind_ok (rt_u16 h5 _)
        (bind_ok (rt_map (fun hp => rt_player hp) h6 _)
          (bind_ok (rt_map (fun hp => rt_pos hp) h7 _)
            (bind_ok (rt_mset h8 _)
              (bind_ok (rt_list (fun hb => rt_bomb hb) h9 _)
                (bind_ok (rt_list (fun hp => rt_pos hp) h10 _)
                  (map_ok (rt_map (fun hv => rt_u32 hv) h11 rest)))))))))))

theorem rdDrawMsg_badTag {b : Nat} (hb : 1 < b) (rest : List Nat) :
    rdDrawMsg (b :: rest) = .error .badType rest := by
  refine bind_ok rdU8_cons ?_
  simp [hb]
  rfl

/-- **C1.**  For every well-formed value of any wire type — the four
top-level messages, the numeric primitives, strings of at most 255
bytes, lists, (u8-keyed) maps, and the domain records Player, Position,
Bomb, Direction and Event — decoding the bytes produced by encoding the
value yields the value back (with the whole encoding consumed). -/
theorem c1_codec_roundtrip :
    (∀ m : ServerMsg, wfServerMsg m → rdServerMsg (wrServerMsg m) = .ok m []) ∧
    (∀ m : ClientMsg, wfClientMsg m → rdClientMsg (wrClientMsg m) = .ok m []) ∧
    (∀ m : InputMsg, rdInputMsg (wrInputMsg m) = .ok m []) ∧
    (∀ m : DrawMsg, wfDrawMsg m → rdDrawMsg (wrDrawMsg m) = .ok m []) ∧
    (∀ v : Nat, v < 256 → rdU8 (wrU8 v) = .ok v []) ∧
    (∀ v : Nat, v < 65536 → rdU16 (wrU16 v) = .ok v []) ∧
    (∀ v : Nat, v < 4294967296 → rdU32 (wrU32 v) = .ok v []) ∧
    (∀ s : List Nat, wfStr s → rdString (wrString s) = .ok s []) ∧
    (∀ (α : Type) (rd : Rd α) (wr : α → List Nat) (wf : α → Prop),
      (∀ a, wf a → ∀ rest, rd (wr a ++ rest) = .ok a rest) →
      ∀ l, wfListOf wf l → rdList rd (wrList wr l) = .ok l []) ∧
    (∀ (υ : Type) (rdV : Rd υ) (wrV : υ → List Nat) (wf : υ → Prop),
      (∀ v, wf v → ∀ rest, rdV (wrV v ++ rest) = .ok v rest) →
      ∀ m, wfMapOf wf m → rdMap rdV (wrMap wrV m) = .ok m []) ∧
    (∀ p : DPlayer, wfPlayer p → rdPlayer (wrPlayer p) = .ok p []) ∧
    (∀ p : DPos, wfPos p → rdPos (wrPos p) = .ok p []) ∧
    (∀ b : DBomb, wfBomb b → rdBomb (wrBomb b) = .ok b []) ∧
    (∀ d : Dir, rdDir (wrDir d) = .ok d []) ∧
    (∀ e : DEvent, wfEvent e → rdEvent (wrEvent e) = .ok e []) := by
  refine ⟨fun m hm => ?_, fun m hm => ?_, fun m => ?_, fun m hm => ?_,
    fun v hv => ?_, fun v hv => ?_, fun v hv => ?_, fun s hs => ?_,
    fun α rd wr wf hrt l hl => ?_, fun υ rdV wrV wf hrt m hm => ?_,
    fun p hp => ?_, fun p hp => ?_, fun b hb => ?_, fun d => ?_,
    fun e he => ?_⟩
  · simpa using rt_serverMsg hm []
  · simpa using rt_clientMsg hm []
  · simpa using rt_inputMsg m []
  · simpa using rt_drawMsg hm []
  · simpa using rt_u8 hv []
  · simpa using rt_u16 hv []
  · simpa using rt_u32 hv []
  · simpa using rt_str hs []
  · simpa using rt_list (fun ha => hrt _ ha) hl []
  · simpa using rt_map (fun hv => hrt _ hv) hm []
  · simpa using rt_player hp []
  · simpa using rt_pos hp []
  · simpa using rt_bomb hb []
  · simpa using rt_dir d []
  · simpa using rt_event he []

/-- Concrete instantiation of `c1_codec_roundtrip`: the S1 `Hello`
message round-trips through the codec. -/
theorem c1_codec_roundtrip_witness :
    wfServerMsg helloS1 ∧ rdServerMsg (wrServerMsg helloS1) = .ok helloS1 [] :=
  ⟨by decide, c1_codec_roundtrip.1 helloS1 (by decide)⟩

/-- **C2.**  For every variant wire type (Direction, Event and
ClientMessage with tags 0..3, ServerMessage with tags 0..4, InputMessage
with tags 0..2, DrawMessage with tags 0..1), decoding an input whose
first byte exceeds the largest declared tag fails with `BadType`; the
error state is exactly the bytes after the tag byte, i.e. the failing
parse consumes the tag byte and nothing else. -/
theorem c2_bad_tag_rejected :
    (∀ (b : Nat) (rest : List Nat), 3 < b → b < 256 →
      rdDir (b :: rest) = .error .badType rest) ∧
    (∀ (b : Nat) (rest : List Nat), 3 < b → b < 256 →
      rdEvent (b :: rest) = .error .badType rest) ∧
    (∀ (b : Nat) (rest : List Nat), 3 < b → b < 256 →
      rdClientMsg (b :: rest) = .error .badType rest) ∧
    (∀ (b : Nat) (rest : List Nat), 4 < b → b < 256 →
      rdServerMsg (b :: rest) = .error .badType rest) ∧
    (∀ (b : Nat) (rest : List Nat), 2 < b → b < 256 →
      rdInputMsg (b :: rest) = .error .badType rest) ∧
    (∀ (b : Nat) (rest : List Nat), 1 < b → b < 256 →
      rdDrawMsg (b :: rest) = .error .badType rest) :=
  ⟨fun _ rest hb _ => rdDir_badTag hb rest,
   fun _ rest hb _ => rdEvent_badTag hb rest,
   fun _ rest hb _ => rdClientMsg_badTag hb rest,
   fun _ rest hb _ => rdServerMsg_badTag hb rest,
   fun _ rest hb _ => rdInputMsg_badTag hb rest,
   fun _ rest hb _ => rdDrawMsg_badTag hb rest⟩

/-- Concrete instantiation of `c2_bad_tag_rejected`: tag byte 200. -/
theorem c2_bad_tag_rejected_witness :
    rdServerMsg (200 :: [7, 8]) = .error .badType [7, 8] :=
  c2_bad_tag_rejected.2.2.2.1 200 [7, 8] (by decide) (by decide)

/-- **C3** concerns a check the code does not perform: the string writer
(`operator<<(Buffer&, const DataString&)`, src/messages.h:101) never
fails.  On a 256-byte string it emits the truncated length prefix
`(uint8_t)256 = 0` followed by all 256 bytes — the exact behaviour the
claim says must not happen. -/
theorem c3_overlong_string_not_rejected :
    wrString (List.replicate 256 97) = 0 :: List.replicate 256 97 ∧
    (List.replicate 256 97).length = 255 + 1 := by
  constructor
  · simp only [wrString, wrU8, List.length_replicate]
    norm_num [List.singleton_append]
  · simp only [List.length_replicate]

theorem candLeft_cons (r x y : Nat) :
    candLeft r x y = ⟨x, y⟩ :: candLeftTail r x y := by
  unfold candLeft candLeftTail
  rw [List.range_succ_eq_map]
  simp [Function.comp]

theorem candRight_cons (r sizeX x y : Nat) :
    candRight r sizeX x y = ⟨x, y⟩ :: candRightTail r sizeX x y := by
  unfold candRight candRightTail
  rw [List.range_succ_eq_map]
  simp [Function.comp]

theorem candDown_cons (r x y : Nat) :
    candDown r x y = ⟨x, y⟩ :: candDownTail r x y := by
  unfold candDown candDownTail
  rw [List.range_succ_eq_map]
  simp [Function.comp]

theorem candUp_cons (r sizeY x y : Nat) :
    candUp r sizeY x y = ⟨x, y⟩ :: candUpTail r sizeY x y := by
  unfold candUp candUpTail
  rw [List.range_succ_eq_map]
  simp [Function.comp]

/-- The client's four bomb-cell-rooted rays and the server's
centre-then-tails traversal visit the same set of cells. -/
theorem explosion_cells_agree (sizeX sizeY r : Nat) (blocks : List DPos)
    (p : DPos) :
    (clientExplosion sizeX sizeY r blocks p).toFinset =
      (serverExplosion sizeX sizeY r blocks p).toFinset := by
  obtain ⟨x, y⟩ := p
  unfold clientExplosion serverExplosion
  rw [candLeft_cons, candRight_cons, candDown_cons, candUp_cons]
  by_cases hp : (⟨x, y⟩ : DPos) ∈ blocks
  · simp only [rayTake, if_pos hp, hp, if_true]
    ext q
    simp
  · simp only [rayTake, if_neg hp, hp, if_false]
    ext q
    simp

/-- Membership in a stopped ray: a cell is visited exactly when it sits
at some index of the candidate list all of whose predecessors are free
of blocks. -/
theorem rayTake_mem (blocks l : List DPos) (c : DPos) :
    c ∈ rayTake blocks l ↔
      ∃ i : Nat, l[i]? = some c ∧
        ∀ j < i, ∀ q, l[j]? = some q → q ∉ blocks := by
  induction l with
  | nil => simp [rayTake]
  | cons a t ih =>
    by_cases ha : a ∈ blocks
    · simp only [rayTake, if_pos ha, List.mem_cons, List.not_mem_nil, or_false]
      constructor
      · rintro rfl
        exact ⟨0, by simp, fun j hj q hq => absurd hj (Nat.not_lt_zero j)⟩
      · rintro ⟨i, hi, hfree⟩
        match i with
        | 0 => simpa using hi.symm
        | j + 1 =>
          exact absurd ha (hfree 0 (Nat.succ_pos j) a (by simp))
    · simp only [rayTake, if_neg ha, List.mem_cons, ih]
      constructor
      · rintro (rfl | ⟨i, hi, hfree⟩)
        · exact ⟨0, by simp, fun j hj q hq => absurd hj (Nat.not_lt_zero j)⟩
        · refine ⟨i + 1, by simpa using hi, fun j hj q hq => ?_⟩
          match j with
          | 0 =>
            simp only [List.getElem?_cons_zero, Option.some.injEq] at hq
            subst hq
            exact ha
          | k + 1 =>
            exact hfree k (Nat.lt_of_succ_lt_succ hj) q (by simpa using hq)
      · rintro ⟨i, hi, hfree⟩
        match i with
        | 0 =>
          left
          simpa using hi.symm
        | j + 1 =>
          right
          refine ⟨j, by simpa using hi, fun k hk q hq => ?_⟩
          exact hfree (k + 1) (Nat.succ_lt_succ hk) q (by simpa using hq)

theorem ray_range_mem (blocks : List DPos) (n : Nat) (f : Nat → DPos)
    (c : DPos) :
    c ∈ rayTake blocks ((List.range n).map f) ↔
      ∃ i, i < n ∧ c = f i ∧ ∀ j < i, f j ∉ blocks := by
  rw [rayTake_mem]
  constructor
  · rintro ⟨i, hi, hfree⟩
    rw [List.getElem?_eq_some] at hi
    obtain ⟨hlen, hc⟩ := hi
    simp only [List.length_map, List.length_range] at hlen
    refine ⟨i, hlen, ?_, ?_⟩
    · rw [List.getElem_map, List.getElem_range] at hc
      exact hc.symm
    · intro j hj
      refine hfree j hj (f j) ?_
      rw [List.getElem?_map, List.getElem?_range (Nat.lt_trans hj hlen)]
      rfl
  · rintro ⟨i, hin, rfl, hfree⟩
    refine ⟨i, ?_, ?_⟩
    · rw [List.getElem?_map, List.getElem?_range hin]
      rfl
    · intro j hj q hq
      rw [List.getElem?_map, List.getElem?_range (Nat.lt_trans hj hin)] at hq
      simp only [Option.map_some', Option.some.injEq] at hq
      exact hq ▸ hfree j hj

/-- For a bomb cell on the board, the client's explosion loops compute
exactly the set described by the claim. -/
theorem clientExplosion_mem (sizeX sizeY r : Nat) (blocks : List DPos)
    (p c : DPos) (hx : p.x < sizeX) (hy : p.y < sizeY) :
    c ∈ clientExplosion sizeX sizeY r blocks p ↔
      specExplosionMem sizeX sizeY r blocks p c := by
  obtain ⟨x, y⟩ := p
  unfold clientExplosion candLeft candRight candDown candUp
  simp only [show ((⟨x, y⟩ : DPos)).x = x from rfl,
    show ((⟨x, y⟩ : DPos)).y = y from rfl] at hx hy ⊢
  rw [List.mem_append, List.mem_append, List.mem_append,
    ray_range_mem, ray_range_mem, ray_range_mem, ray_range_mem]
  unfold specExplosionMem
  constructor
  · rintro (((⟨i, hin, rfl, hfree⟩ | ⟨i, hin, rfl, hfree⟩) |
      ⟨i, hin, rfl, hfree⟩) | ⟨i, hin, rfl, hfree⟩)
    · exact ⟨.left, i, by omega, by simp only [stepInBoard]; omega, rfl, hfree⟩
    · exact ⟨.right, i, by omega, by simp only [stepInBoard]; omega, rfl, hfree⟩
    · exact ⟨.down, i, by omega, by simp only [stepInBoard]; omega, rfl, hfree⟩
    · exact ⟨.up, i, by omega, by simp only [stepInBoard]; omega, rfl, hfree⟩
  · rintro ⟨d, i, hir, hib, rfl, hfree⟩
    cases d with
    | up =>
      simp only [stepInBoard] at hib
      exact Or.inr ⟨i, by omega, rfl, hfree⟩
    | right =>
      simp only [stepInBoard] at hib
      exact Or.inl (Or.inl (Or.inr ⟨i, by omega, rfl, hfree⟩))
    | down =>
      simp only [stepInBoard] at hib
      exact Or.inl (Or.inr ⟨i, by omega, rfl, hfree⟩)
    | left =>
      simp only [stepInBoard] at hib
      exact Or.inl (Or.inl (Or.inl ⟨i, by omega, rfl, hfree⟩))

/-- **C5.**  For a bomb on the board, the explosion cells computed by
the client fold and by the server engine agree, and both are exactly
the set the claim describes: the bomb's own cell plus four axial rays of
length at most `explosionRadius`, clipped to the board, each ray
stopping at and including the first cell containing a block (evaluated
against the block set in force when the event is processed, before this
turn's block removals).  In particular, on the 5×5 board with a bomb at
(2,2), radius 3 and blocks {(2,0),(4,2)}, the cells are the nine listed
ones and the destroyed blocks are {(2,0),(4,2)}. -/
theorem c5_explosion_semantics :
    (∀ (sizeX sizeY r : Nat) (blocks : List DPos) (p : DPos),
        p.x < sizeX → p.y < sizeY →
        (∀ c, c ∈ clientExplosion sizeX sizeY r blocks p ↔
            specExplosionMem sizeX sizeY r blocks p c) ∧
        (clientExplosion sizeX sizeY r blocks p).toFinset =
          (serverExplosion sizeX sizeY r blocks p).toFinset) ∧
    (clientExplosion 5 5 3 [⟨2, 0⟩, ⟨4, 2⟩] ⟨2, 2⟩).toFinset =
      ({⟨2, 2⟩, ⟨2, 1⟩, ⟨2, 0⟩, ⟨1, 2⟩, ⟨0, 2⟩, ⟨3, 2⟩, ⟨4, 2⟩, ⟨2, 3⟩,
        ⟨2, 4⟩} : Finset DPos) ∧
    (serverExplosion 5 5 3 [⟨2, 0⟩, ⟨4, 2⟩] ⟨2, 2⟩).toFinset =
      ({⟨2, 2⟩, ⟨2, 1⟩, ⟨2, 0⟩, ⟨1, 2⟩, ⟨0, 2⟩, ⟨3, 2⟩, ⟨4, 2⟩, ⟨2, 3⟩,
        ⟨2, 4⟩} : Finset DPos) ∧
    (serverDestroyedBlocks 5 5 3 [⟨2, 0⟩, ⟨4, 2⟩] ⟨2, 2⟩).toFinset =
      ({⟨2, 0⟩, ⟨4, 2⟩} : Finset DPos) := by
  refine ⟨fun sizeX sizeY r blocks p hx hy =>
    ⟨fun c => clientExplosion_mem sizeX sizeY r blocks p c hx hy,
      explosion_cells_agree sizeX sizeY r blocks p⟩,
    by decide, by decide, by decide⟩

/-- Concrete instantiation of `c5_explosion_semantics`: client and
server agree on the S4 example. -/
theorem c5_explosion_semantics_witness :
    (⟨2, 2⟩ : DPos).x < 5 ∧ (⟨2, 2⟩ : DPos).y < 5 ∧
    (clientExplosion 5 5 3 [⟨2, 0⟩, ⟨4, 2⟩] ⟨2, 2⟩).toFinset =
      (serverExplosion 5 5 3 [⟨2, 0⟩, ⟨4, 2⟩] ⟨2, 2⟩).toFinset :=
  ⟨by decide, by decide,
    (c5_explosion_semantics.1 5 5 3 [⟨2, 0⟩, ⟨4, 2⟩] ⟨2, 2⟩
      (by decide) (by decide)).2⟩

/-! ### Association-list lemmas -/

theorem alLookup_insert_self {β : Type} (k : Nat) (v : β)
    (l : List (Nat × β)) : alLookup k (alInsert k v l) = some v := by
  induction l with
  | nil => simp [alInsert, alLookup]
  | cons p rest ih =>
    obtain ⟨k', v'⟩ := p
    by_cases h : k = k'
    · simp [alInsert, alLookup, h]
    · simp [alInsert, alLookup, h, ih]

theorem alLookup_insert_ne {β : Type} {k j : Nat} (h : k ≠ j) (v : β)
    (l : List (Nat × β)) : alLookup k (alInsert j v l) = alLookup k l := by
  induction l with
  | nil => simp [alInsert, alLookup, h]
  | cons p rest ih =>
    obtain ⟨k', v'⟩ := p
    by_cases hj : j = k'
    · subst hj
      simp [alInsert, alLookup, h, ih]
    · by_cases hk : k = k'
      · simp [alInsert, alLookup, hj, hk]
      · simp [alInsert, alLookup, hj, hk, ih]

theorem alLookup_erase_self {β : Type} (k : Nat) (l : List (Nat × β)) :
    alLookup k (alErase k l) = none := by
  induction l with
  | nil => simp [alErase, alLookup]
  | cons p rest ih =>
    obtain ⟨k', v'⟩ := p
    by_cases h : k = k'
    · subst h
      simp [alErase, ih]
    · simp [alErase, alLookup, h, ih]

theorem alLookup_erase_ne {β : Type} {k j : Nat} (h : k ≠ j)
    (l : List (Nat × β)) : alLookup k (alErase j l) = alLookup k l := by
  induction l with
  | nil => simp [alErase, alLookup]
  | cons p rest ih =>
    obtain ⟨k', v'⟩ := p
    by_cases hj : j = k'
    · subst hj
      simp [alErase, alLookup, ih, h]
    · by_cases hk : k = k'
      · simp [alErase, alLookup, hj, hk]
      · simp [alErase, alLookup, hj, hk, ih]

theorem alLookup_map_val {β γ : Type} (f : β → γ) (k : Nat)
    (l : List (Nat × β)) :
    alLookup k (l.map (fun kb => (kb.1, f kb.2))) =
      (alLookup k l).map f := by
  induction l with
  | nil => simp [alLookup]
  | cons p rest ih =>
    obtain ⟨k', v'⟩ := p
    by_cases h : k = k'
    · simp [alLookup, h]
    · simp [alLookup, h, ih]

/-! ### Event-fold lemmas -/

theorem processEvents_append (st : ClientState) (dp : List Nat)
    (db : List DPos) (l1 l2 : List DEvent) :
    processEvents st dp db (l1 ++ l2) =
      processEvents (processEvents st dp db l1).1
        (processEvents st dp db l1).2.1
        (processEvents st dp db l1).2.2 l2 := by
  induction l1 generalizing st dp db with
  | nil => rfl
  | cons e es ih =>
    simp only [List.cons_append, processEvents]
    exact ih _ _ _

/-- Projection lemmas for single events (used to step the event fold). -/
theorem processEvent_placed_activeBombs (st : ClientState) (dp : List Nat)
    (db : List DPos) (id : Nat) (pos : DPos) :
    (processEvent st dp db (.bombPlaced id pos)).1.activeBombs =
      alInsert id ⟨pos, st.bombTimer⟩ st.activeBombs := rfl

theorem processEvent_exploded_activeBombs (st : ClientState) (dp : List Nat)
    (db : List DPos) (id : Nat) (pd : List Nat) (bd : List DPos) :
    (processEvent st dp db (.bombExploded id pd bd)).1.activeBombs =
      alErase id st.activeBombs := rfl

theorem processEvents_bombTimer (st : ClientState) (dp : List Nat)
    (db : List DPos) (evs : List DEvent) :
    (processEvents st dp db evs).1.bombTimer = st.bombTimer := by
  induction evs generalizing st dp db with
  | nil => rfl
  | cons e es ih =>
    cases e <;> simp only [processEvents, processEvent] <;> exact ih _ _ _

theorem processEvents_untouched {id : Nat} {evs : List DEvent}
    (hev : ∀ e ∈ evs, touchesBomb id e = false) (st : ClientState)
    (dp : List Nat) (db : List DPos) :
    alLookup id (processEvents st dp db evs).1.activeBombs =
      alLookup id st.activeBombs := by
  induction evs generalizing st dp db with
  | nil => rfl
  | cons e es ih =>
    have he := hev e (List.mem_cons_self _ _)
    have hes : ∀ e ∈ es, touchesBomb id e = false :=
      fun e h => hev e (List.mem_cons_of_mem _ h)
    cases e with
    | bombPlaced j pos =>
      simp only [touchesBomb, beq_eq_false_iff_ne, ne_eq] at he
      simp only [processEvents, processEvent]
      rw [ih hes]
      exact alLookup_insert_ne (fun h => he h.symm) _ _
    | bombExploded j pd bd =>
      simp only [touchesBomb, beq_eq_false_iff_ne, ne_eq] at he
      simp only [processEvents, processEvent]
      rw [ih hes]
      exact alLookup_erase_ne (fun h => he h.symm) _
    | playerMoved pid pos =>
      simp only [processEvents, processEvent]
      exact ih hes _ _ _
    | blockPlaced pos =>
      simp only [processEvents, processEvent]
      exact ih hes _ _ _

theorem processEvents_stays_absent {id : Nat} {evs : List DEvent}
    (hev : ∀ e ∈ evs, placesBomb id e = false) (st : ClientState)
    (dp : List Nat) (db : List DPos)
    (habs : alLookup id st.activeBombs = none) :
    alLookup id (processEvents st dp db evs).1.activeBombs = none := by
  induction evs generalizing st dp db with
  | nil => exact habs
  | cons e es ih =>
    have he := hev e (List.mem_cons_self _ _)
    have hes : ∀ e ∈ es, placesBomb id e = false :=
      fun e h => hev e (List.mem_cons_of_mem _ h)
    cases e with
    | bombPlaced j pos =>
      simp only [placesBomb, beq_eq_false_iff_ne, ne_eq] at he
      simp only [processEvents, processEvent]
      refine ih hes _ _ _ ?_
      rw [alLookup_insert_ne (fun h => he h.symm)]
      exact habs
    | bombExploded j pd bd =>
      simp only [processEvents, processEvent]
      refine ih hes _ _ _ ?_
      by_cases hj : id = j
      · subst hj
        exact alLookup_erase_self _ _
      · rw [alLookup_erase_ne hj]
        exact habs
    | playerMoved pid pos =>
      simp only [processEvents, processEvent]
      exact ih hes _ _ _ habs
    | blockPlaced pos =>
      simp only [processEvents, processEvent]
      exact ih hes _ _ _ habs

/-- The `activeBombs` map of the state returned by `processTurn` is the
one left by the event fold on the timer-decremented state. -/
theorem processTurn_activeBombs (st : ClientState) (turnNo : Nat)
    (evs : List DEvent) :
    (processTurn st turnNo evs).activeBombs =
      (processEvents { st with
        activeBombs := st.activeBombs.map
          (fun kb => (kb.1, ⟨kb.2.position, decTimer kb.2.timer⟩))
        explosions := []
        turn := turnNo } [] [] evs).1.activeBombs := rfl

/-- A bomb present before a turn whose events do not mention it comes
out of the turn with its timer decremented once (step 1 of
`processTurnMessage`). -/
theorem processTurn_tick {st : ClientState} {id : Nat} {p : DPos} {v : Nat}
    (hlook : alLookup id st.activeBombs = some ⟨p, v⟩) (turnNo : Nat)
    {evs : List DEvent} (hev : ∀ e ∈ evs, touchesBomb id e = false) :
    alLookup id (processTurn st turnNo evs).activeBombs =
      some ⟨p, decTimer v⟩ := by
  rw [processTurn_activeBombs, processEvents_untouched hev]
  show alLookup id (List.map (fun kb : Nat × DBomb =>
      (kb.1, (⟨kb.2.position, decTimer kb.2.timer⟩ : DBomb)))
    st.activeBombs) = some (⟨p, decTimer v⟩ : DBomb)
  rw [alLookup_map_val (fun b : DBomb => (⟨b.position, decTimer b.timer⟩ :
    DBomb)) id st.activeBombs, hlook]
  rfl

/-- **C6.**  The client's bomb-timer bookkeeping: (1) a turn whose
events contain `BombPlaced(id, pos)`, with no later event for the same
id, leaves `activeBombs[id]` with the full `bombTimer` `B` carried by
the Hello — the timer decrement happens before the events are applied;
(2) folding `j` further turns that do not mention the bomb leaves its
timer at exactly `B − j` (so after the turn numbered `t`, with the
placement in turn `T`, the timer is `B − (t − T)`); (3) a turn whose
events contain `BombExploded(id, …)`, with no later re-placement of the
same id, removes the bomb; (4) the draw-state `bombs` list is exactly
the values of `activeBombs`, so the bomb appears in it with that timer
and disappears when it explodes. -/
theorem c6_bomb_timer_invariant :
    (∀ (st : ClientState) (turnNo : Nat) (pre post : List DEvent)
        (id : Nat) (pos : DPos),
      (∀ e ∈ post, touchesBomb id e = false) →
      alLookup id (processTurn st turnNo
          (pre ++ DEvent.bombPlaced id pos :: post)).activeBombs =
        some ⟨pos, st.bombTimer⟩) ∧
    (∀ (st : ClientState) (ts : List (Nat × List DEvent)) (id : Nat)
        (p : DPos) (v : Nat),
      alLookup id st.activeBombs = some ⟨p, v⟩ →
      (∀ t ∈ ts, ∀ e ∈ t.2, touchesBomb id e = false) →
      ts.length ≤ v → v < 65536 →
      alLookup id (foldTurns st ts).activeBombs =
        some ⟨p, v - ts.length⟩) ∧
    (∀ (st : ClientState) (turnNo : Nat) (pre post : List DEvent)
        (id : Nat) (pd : List Nat) (bd : List DPos),
      (∀ e ∈ post, placesBomb id e = false) →
      alLookup id (processTurn st turnNo
          (pre ++ DEvent.bombExploded id pd bd :: post)).activeBombs =
        none) ∧
    (∀ (st : ClientState) (turnNo : Nat) (evs : List DEvent),
      (processTurn st turnNo evs).bombs =
        (processTurn st turnNo evs).activeBombs.map Prod.snd) := by
  refine ⟨?_, ?_, ?_, fun st turnNo evs => rfl⟩
  · intro st turnNo pre post id pos hpost
    rw [processTurn_activeBombs, processEvents_append]
    simp only [processEvents]
    rw [processEvents_untouched hpost, processEvent_placed_activeBombs,
      alLookup_insert_self, processEvents_bombTimer]
  · intro st ts id p v hlook hev hlen hv
    induction ts generalizing st v with
    | nil => simpa [foldTurns] using hlook
    | cons t ts ih =>
      have ht : ∀ e ∈ t.2, touchesBomb id e = false :=
        fun e h => hev t (List.mem_cons_self _ _) e h
      have hts : ∀ u ∈ ts, ∀ e ∈ u.2, touchesBomb id e = false :=
        fun u hu e h => hev u (List.mem_cons_of_mem _ hu) e h
      have h1 := processTurn_tick hlook t.1 ht
      have hdec : decTimer v = v - 1 := by
        simp only [List.length_cons] at hlen
        unfold decTimer
        omega
      rw [hdec] at h1
      have := ih (processTurn st t.1 t.2) (v - 1) h1 hts
        (by simp only [List.length_cons] at hlen; omega) (by omega)
      show alLookup id (foldTurns (processTurn st t.1 t.2) ts).activeBombs
        = _
      rw [this]
      have harith : v - 1 - ts.length = v - (t :: ts).length := by
        simp only [List.length_cons]
        omega
      rw [harith]
  · intro st turnNo pre post id pd bd hpost
    rw [processTurn_activeBombs, processEvents_append]
    simp only [processEvents]
    refine processEvents_stays_absent hpost _ _ _ ?_
    rw [processEvent_exploded_activeBombs]
    exact alLookup_erase_self _ _

/-- Concrete instantiation of `c6_bomb_timer_invariant`: a bomb placed
this turn carries the full timer. -/
theorem c6_bomb_timer_invariant_witness :
    alLookup 7 (processTurn clientStateEx 1
        ([] ++ DEvent.bombPlaced 7 ⟨1, 2⟩ :: [])).activeBombs =
      some ⟨⟨1, 2⟩, clientStateEx.bombTimer⟩ :=
  c6_bomb_timer_invariant.1 clientStateEx 1 [] [] 7 ⟨1, 2⟩
    (fun e h => absurd h (List.not_mem_nil e))

/-- The explosion set produced by a turn consisting of one
`BombExploded` event, written against the (timer-decremented) map. -/
theorem processTurn_single_exploded (st : ClientState) (turnNo id : Nat)
    (pd : List Nat) (bd : List DPos) :
    (processTurn st turnNo [DEvent.bombExploded id pd bd]).explosions =
      [] ++ clientExplosion st.sizeX st.sizeY st.explosionRadius st.blocks
        (((alLookup id (List.map (fun kb : Nat × DBomb =>
            (kb.1, (⟨kb.2.position, decTimer kb.2.timer⟩ : DBomb)))
          st.activeBombs)).getD ⟨⟨0, 0⟩, 0⟩).position) := rfl

/-- **C10.**  A `BombExploded` whose bombID has no entry in
`activeBombs` does not break the client fold: `activeBombs[id]`
default-inserts a bomb at position (0,0), the explosion is ray-cast
from (0,0), and the entry is erased afterwards, so the fold is total on
such inputs and the id stays absent. -/
theorem c10_unknown_bomb_explosion :
    ∀ (st : ClientState) (turnNo id : Nat) (pd : List Nat)
      (bd : List DPos),
      alLookup id st.activeBombs = none →
      (processTurn st turnNo [DEvent.bombExploded id pd bd]).explosions =
        clientExplosion st.sizeX st.sizeY st.explosionRadius st.blocks
          ⟨0, 0⟩ ∧
      alLookup id (processTurn st turnNo
          [DEvent.bombExploded id pd bd]).activeBombs = none := by
  intro st turnNo id pd bd habs
  constructor
  · rw [processTurn_single_exploded,
      alLookup_map_val (fun b : DBomb =>
        (⟨b.position, decTimer b.timer⟩ : DBomb)) id st.activeBombs,
      habs]
    rfl
  · rw [processTurn_activeBombs]
    simp only [processEvents]
    rw [processEvent_exploded_activeBombs]
    exact alLookup_erase_self _ _

/-- Concrete instantiation of `c10_unknown_bomb_explosion`: bomb id 9
was never placed in `clientStateEx`. -/
theorem c10_unknown_bomb_explosion_witness :
    (processTurn clientStateEx 1
        [DEvent.bombExploded 9 [] []]).explosions =
      clientExplosion 5 5 3 [] ⟨0, 0⟩ :=
  (c10_unknown_bomb_explosion clientStateEx 1 9 [] [] rfl).1

/-- **C9.**  GUI-input translation: in the lobby every input becomes
`Join(playerName)`; in game `PlaceBomb`, `PlaceBlock` and `Move(d)` are
forwarded unchanged, and the emitted `ClientMessage::PlaceBomb` encodes
as the single tag byte `01`. -/
theorem c9_input_translation :
    (∀ (name : List Nat) (m : InputMsg),
      processInputMessage .lobby name m = .join name) ∧
    (∀ name : List Nat,
      processInputMessage .game name .placeBomb = .placeBomb) ∧
    (∀ name : List Nat,
      processInputMessage .game name .placeBlock = .placeBlock) ∧
    (∀ (name : List Nat) (d : Dir),
      processInputMessage .game name (.move d) = .move d) ∧
    wrClientMsg .placeBomb = [1] :=
  ⟨fun _ m => by cases m <;> rfl, fun _ => rfl, fun _ => rfl,
    fun _ _ => rfl, rfl⟩

theorem posLt_both_false {a b : DPos} (h1 : posLt a b = false)
    (h2 : posLt b a = false) : a = b := by
  obtain ⟨ax, ay⟩ := a
  obtain ⟨bx, by'⟩ := b
  unfold posLt at h1 h2
  simp only [DPos.mk.injEq]
  split_ifs at h1 h2
  simp_all
  omega

theorem pairLt_timer_le {a b : DBomb × Nat} (h : pairLt a b = true) :
    a.1.timer ≤ b.1.timer := by
  unfold pairLt bombLt at h
  split_ifs at h
  all_goals simp_all
  all_goals omega

/-- **C4 (amended).**  Every bomb whose scheduled explosion turn equals
the current turn is popped, exactly once, with one `BombExploded` per
bomb; among bombs scheduled for the same turn the pop order is by bomb
position (x, then y) and only then by bombID — not by insertion order
alone. -/
theorem c4_explosion_pop_order :
    ∀ (q : List (DBomb × Nat)) (turn : Nat),
      List.Pairwise (fun a b => pairLt a b = true) q →
      (∀ p ∈ q, turn ≤ p.1.timer) →
      explodeLoop turn q = q.filter (fun p => p.1.timer == turn) ∧
      List.Pairwise (fun a b =>
          posLt a.1.position b.1.position = true ∨
            (a.1.position = b.1.position ∧ a.2 < b.2))
        (q.filter (fun p => p.1.timer == turn)) := by
  intro q turn hsort htimer
  constructor
  · induction q with
    | nil => rfl
    | cons p rest ih =>
      obtain ⟨b, id⟩ := p
      have hrest : ∀ x ∈ rest, turn ≤ x.1.timer :=
        fun x hx => htimer x (List.mem_cons_of_mem _ hx)
      by_cases hb : b.timer = turn
      · simp only [explodeLoop, if_pos hb]
        rw [ih (List.pairwise_cons.mp hsort).2 hrest]
        simp [List.filter_cons, hb]
      · have hgt : turn < b.timer :=
          Nat.lt_of_le_of_ne (htimer (b, id) (List.mem_cons_self _ _))
            (fun h => hb h.symm)
        have hall : ∀ x ∈ rest, ¬ ((fun p : DBomb × Nat =>
            p.1.timer == turn) x = true) := by
          intro x hx
          have h2 : b.timer ≤ x.1.timer :=
            pairLt_timer_le ((List.pairwise_cons.mp hsort).1 x hx)
          simp only [beq_iff_eq]
          omega
        simp only [explodeLoop, if_neg hb]
        rw [List.filter_cons]
        simp only [show ((b, id).1.timer == turn) = false by
          simpa using hb, Bool.false_eq_true, if_false]
        exact (List.filter_eq_nil_iff.mpr hall).symm
  · refine List.Pairwise.imp_of_mem ?_ (List.Pairwise.filter _ hsort)
    intro a b ha hb hab
    have hat : a.1.timer = turn := by
      simpa using (List.mem_filter.mp ha).2
    have hbt : b.1.timer = turn := by
      simpa using (List.mem_filter.mp hb).2
    unfold pairLt bombLt at hab
    split_ifs at hab <;> simp_all
    exact posLt_both_false (by assumption) (by assumption)

/-- **C4 (counterexample).**  `cqEx` is a valid queue state (sorted by
the comparator, all bombs due at turn 3), yet the emission order of the
bomb ids is [1, 0] — not ascending bombID, refuting "ordered by
scheduled turn then insertion order". -/
theorem c4_insertion_order_counterexample :
    List.Pairwise (fun a b => pairLt a b = true) cqEx ∧
    (∀ p ∈ cqEx, p.1.timer = 3) ∧
    (explodeLoop 3 cqEx).map Prod.snd = [1, 0] ∧
    ¬ List.Pairwise (fun a b : Nat => a < b)
      ((explodeLoop 3 cqEx).map Prod.snd) := by
  refine ⟨?_, ?_, rfl, ?_⟩
  · decide
  · decide
  · decide

/-- Concrete instantiation of `c4_explosion_pop_order` at `cqEx`. -/
theorem c4_explosion_pop_order_witness :
    explodeLoop 3 cqEx = cqEx.filter (fun p => p.1.timer == 3) ∧
    List.Pairwise (fun a b =>
        posLt a.1.position b.1.position = true ∨
          (a.1.position = b.1.position ∧ a.2 < b.2))
      (cqEx.filter (fun p => p.1.timer == 3)) :=
  c4_explosion_pop_order cqEx 3 (by decide) (by decide)

theorem playersLoop_shape (sizeX sizeY : Nat) :
    ∀ (n pid seed : Nat), ∃ f : Nat → DPos,
      (playersLoop sizeX sizeY pid n seed).1 =
        (List.range n).map (fun i => DEvent.playerMoved (pid + i) (f i)) := by
  intro n
  induction n with
  | zero => exact fun pid seed => ⟨fun _ => ⟨0, 0⟩, rfl⟩
  | succ n ih =>
    intro pid seed
    obtain ⟨f, hf⟩ := ih (pid + 1) (drawPos sizeX sizeY seed).2
    refine ⟨fun i => match i with
      | 0 => (drawPos sizeX sizeY seed).1
      | j + 1 => f j, ?_⟩
    rw [List.range_succ_eq_map]
    simp only [playersLoop, List.map_cons, List.map_map, Nat.add_zero]
    rw [hf]
    refine congrArg (DEvent.playerMoved pid (drawPos sizeX sizeY seed).1
      :: ·) ?_
    refine List.map_congr_left ?_
    intro j hj
    simp only [Function.comp]
    have hadd : pid + 1 + j = pid + Nat.succ j := by omega
    rw [hadd]

theorem blocksLoop_shape (sizeX sizeY : Nat) :
    ∀ (n seed : Nat) (bl : List DPos),
      (blocksLoop sizeX sizeY n seed bl).1.length ≤ n ∧
      ∀ e ∈ (blocksLoop sizeX sizeY n seed bl).1,
        ∃ p, e = DEvent.blockPlaced p := by
  intro n
  induction n with
  | zero => exact fun seed bl => ⟨Nat.le_refl 0, by simp [blocksLoop]⟩
  | succ n ih =>
    intro seed bl
    by_cases hm : (drawPos sizeX sizeY seed).1 ∈ bl
    · simp only [blocksLoop, if_pos hm]
      obtain ⟨h1, h2⟩ := ih (drawPos sizeX sizeY seed).2 bl
      exact ⟨Nat.le_succ_of_le h1, h2⟩
    · simp only [blocksLoop, if_neg hm]
      obtain ⟨h1, h2⟩ := ih (drawPos sizeX sizeY seed).2
        ((drawPos sizeX sizeY seed).1 :: bl)
      refine ⟨by simpa using Nat.succ_le_succ h1, ?_⟩
      intro e he
      rcases List.mem_cons.mp he with h | h
      · exact ⟨(drawPos sizeX sizeY seed).1, h⟩
      · exact h2 e h

/-- **C8.**  The PRNG satisfies `seed' = seed · 48271 mod (2³¹ − 1)`
(for any seed that fits the server's `uint32_t` seed option, the
`uint64_t` product does not overflow), each call returning the new
seed.  With seed 0 and `sizeX = sizeY = 16`, `playerCount = 1`,
`initialBlocks = 1`, the Turn 0 event list is exactly
`[PlayerMoved(0,(0,0)), BlockPlaced((0,0))]`; in general Turn 0 is one
`PlayerMoved` per player in ascending playerID order followed by at
most `initialBlocks` `BlockPlaced` events (already-blocked draws are
skipped silently). -/
theorem c8_prng_turn0 :
    (∀ s : Nat, s < 4294967296 → rngNext s = s * 48271 % 2147483647) ∧
    turn0Events 0 16 16 1 1 =
      [DEvent.playerMoved 0 ⟨0, 0⟩, DEvent.blockPlaced ⟨0, 0⟩] ∧
    (∀ seed sizeX sizeY playerCount initialBlocks : Nat,
      ∃ (f : Nat → DPos) (bevs : List DEvent),
        turn0Events seed sizeX sizeY playerCount initialBlocks =
          (List.range playerCount).map
            (fun i => DEvent.playerMoved i (f i)) ++ bevs ∧
        bevs.length ≤ initialBlocks ∧
        ∀ e ∈ bevs, ∃ p, e = DEvent.blockPlaced p) := by
  refine ⟨?_, ?_, ?_⟩
  · intro s hs
    unfold rngNext
    have h1 : s * 48271 < 18446744073709551616 := by
      calc s * 48271 ≤ 4294967295 * 48271 :=
            Nat.mul_le_mul_right _ (by omega)
        _ < 18446744073709551616 := by norm_num
    rw [Nat.mod_eq_of_lt h1]
  · rfl
  · intro seed sizeX sizeY playerCount initialBlocks
    obtain ⟨f, hf⟩ := playersLoop_shape sizeX sizeY playerCount 0 seed
    obtain ⟨h1, h2⟩ := blocksLoop_shape sizeX sizeY initialBlocks
      (playersLoop sizeX sizeY 0 playerCount seed).2 []
    refine ⟨f, (blocksLoop sizeX sizeY initialBlocks
      (playersLoop sizeX sizeY 0 playerCount seed).2 []).1, ?_, h1, h2⟩
    show (playersLoop sizeX sizeY 0 playerCount seed).1 ++
        (blocksLoop sizeX sizeY initialBlocks
          (playersLoop sizeX sizeY 0 playerCount seed).2 []).1 =
      (List.range playerCount).map
        (fun i => DEvent.playerMoved i (f i)) ++
        (blocksLoop sizeX sizeY initialBlocks
          (playersLoop sizeX sizeY 0 playerCount seed).2 []).1
    rw [hf]
    refine congrArg (fun l => l ++ _) ?_
    refine List.map_congr_left ?_
    intro j hj
    rw [Nat.zero_add]

/-- Concrete instantiation of `c8_prng_turn0`: one PRNG step. -/
theorem c8_prng_turn0_witness :
    rngNext 123456 = 123456 * 48271 % 2147483647 :=
  c8_prng_turn0.1 123456 (by norm_num)

end Robots
